import Mathlib

/-!
Verification of the edge-identity orchestrator core (public-IP discovery,
domain-alias registry, Cloudflare DNS/SSL helpers, tunnel-connector audit
logging, settings store).

Strings are modelled as `List Char`; the Python string primitives used by the
source (`str.strip`, `str.lower`, `str.split`, `str.join`, truthiness of
strings) are embedded below.  `str.lower` is modelled as ASCII lowering
(`Char.toLower`), which agrees with Python on the ASCII hostnames these
services manipulate.  External effects (the SQLite tables, the Cloudflare
HTTP API, `subprocess`, `secrets`) are modelled as explicit state passing and
function-valued parameters, one per effect, as documented at each definition.
-/

namespace PyStr

/-- Whitespace characters recognised by Python's `str.strip()` (ASCII part). -/
def isPySpace (c : Char) : Bool :=
  c.toNat = 32 || c.toNat = 9 || c.toNat = 10 || c.toNat = 13 ||
  c.toNat = 11 || c.toNat = 12

/-- Python `str.strip()`: drop leading and trailing whitespace. -/
def pyStrip (s : List Char) : List Char :=
  ((s.dropWhile isPySpace).reverse.dropWhile isPySpace).reverse

/-- Python `str.lower()` restricted to ASCII (`Char.toLower` lowers A-Z). -/
def lowerL (s : List Char) : List Char :=
  s.map Char.toLower

/-- Python `str.split(",")`: split at every comma; the empty string yields
one empty part, mirroring `"".split(",") == [""]`. -/
def splitComma : List Char → List (List Char)
  | [] => [[]]
  | c :: rest =>
    match splitComma rest with
    | [] => [[]]
    | p :: ps => if c = ',' then [] :: p :: ps else (c :: p) :: ps

/-- Python `", ".join(parts)`. -/
def joinCommaSpace : List (List Char) → List Char
  | [] => []
  | [p] => p
  | p :: ps => p ++ ',' :: ' ' :: joinCommaSpace ps

/-- Order-preserving deduplication against an accumulating seen-set, the
shape of the explicit dedup loops in the source. -/
def dedupSeen : List (List Char) → List (List Char) → List (List Char)
  | _, [] => []
  | seen, x :: xs =>
    if x ∈ seen then dedupSeen seen xs else x :: dedupSeen (x :: seen) xs

/-- Lexicographic comparison of strings by code point, Python's `<=` on str
as used by `sorted`. -/
def lexLe : List Char → List Char → Bool
  | [], _ => true
  | _ :: _, [] => false
  | a :: as, b :: bs =>
    if a.toNat < b.toNat then true
    else if b.toNat < a.toNat then false
    else lexLe as bs

/-- Insert into a lexicographically sorted list. -/
def insertLex (x : List Char) : List (List Char) → List (List Char)
  | [] => [x]
  | y :: ys => if lexLe x y then x :: y :: ys else y :: insertLex x ys

/-- Python `sorted` on a collection of strings (insertion sort; the result is
the unique ascending enumeration of a duplicate-free input). -/
def sortStrs : List (List Char) → List (List Char)
  | [] => []
  | x :: xs => insertLex x (sortStrs xs)

theorem toNat_ofNat_valid (n : Nat) (h : n.isValidChar) :
    (Char.ofNat n).toNat = n := by
  simp [Char.ofNat, h]
  rfl

theorem toLower_toNat_of_upper (c : Char) (h : 65 ≤ c.toNat ∧ c.toNat ≤ 90) :
    (Char.toLower c).toNat = c.toNat + 32 := by
  have hv : (c.toNat + 32).isValidChar := by
    left
    omega
  simp only [Char.toLower, ge_iff_le]
  rw [if_pos ⟨h.1, h.2⟩]
  exact toNat_ofNat_valid _ hv

theorem toLower_eq_of_not_upper (c : Char) (h : ¬(65 ≤ c.toNat ∧ c.toNat ≤ 90)) :
    Char.toLower c = c := by
  simp only [Char.toLower, ge_iff_le]
  rw [if_neg h]

theorem toLower_toLower (c : Char) : Char.toLower (Char.toLower c) = Char.toLower c := by
  by_cases h : 65 ≤ c.toNat ∧ c.toNat ≤ 90
  · have h1 := toLower_toNat_of_upper c h
    apply toLower_eq_of_not_upper
    omega
  · rw [toLower_eq_of_not_upper c h]
    exact toLower_eq_of_not_upper c h

theorem isPySpace_eq_false_of_ge (c : Char) (h : 33 ≤ c.toNat) : isPySpace c = false := by
  simp only [isPySpace, Bool.or_eq_false_iff, decide_eq_false_iff_not]
  omega

theorem isPySpace_toLower (c : Char) : isPySpace (Char.toLower c) = isPySpace c := by
  by_cases h : 65 ≤ c.toNat ∧ c.toNat ≤ 90
  · have h1 := toLower_toNat_of_upper c h
    rw [isPySpace_eq_false_of_ge c (by omega), isPySpace_eq_false_of_ge _ (by omega)]
  · rw [toLower_eq_of_not_upper c h]

theorem dropWhile_head_false {α : Type} (p : α → Bool) :
    ∀ (l : List α) (c : α) (t : List α), List.dropWhile p l = c :: t → p c = false := by
  intro l
  induction l with
  | nil => intro c t h; simp [List.dropWhile] at h
  | cons a l ih =>
    intro c t h
    rw [List.dropWhile_cons] at h
    by_cases ha : p a = true
    · rw [if_pos ha] at h
      exact ih c t h
    · rw [if_neg ha] at h
      cases h
      simpa using ha

theorem dropWhile_idem {α : Type} (p : α → Bool) (l : List α) :
    List.dropWhile p (List.dropWhile p l) = List.dropWhile p l := by
  cases h : List.dropWhile p l with
  | nil => rfl
  | cons c t =>
    rw [List.dropWhile_cons, if_neg]
    rw [dropWhile_head_false p l c t h]
    simp

theorem dropWhile_eq_self_of_all {α : Type} (p : α → Bool) (l : List α)
    (h : ∀ c ∈ l, p c = false) : List.dropWhile p l = l := by
  cases l with
  | nil => rfl
  | cons a t =>
    rw [List.dropWhile_cons, if_neg]
    rw [h a (by simp)]
    simp

theorem pyStrip_eq_self_of_all (s : List Char) (h : ∀ c ∈ s, isPySpace c = false) :
    pyStrip s = s := by
  unfold pyStrip
  rw [dropWhile_eq_self_of_all _ s h]
  rw [dropWhile_eq_self_of_all _ s.reverse (by intro c hc; exact h c (by simpa using hc))]
  exact s.reverse_reverse

theorem mem_pyStrip (s : List Char) (c : Char) (h : c ∈ pyStrip s) : c ∈ s := by
  unfold pyStrip at h
  rw [List.mem_reverse] at h
  have h2 := (List.dropWhile_sublist (l := (List.dropWhile isPySpace s).reverse) isPySpace).mem h
  rw [List.mem_reverse] at h2
  exact (List.dropWhile_sublist isPySpace).mem h2

theorem pyStrip_idem (s : List Char) : pyStrip (pyStrip s) = pyStrip s := by
  have key : ∀ r : List Char, List.dropWhile isPySpace r.reverse = r.reverse →
      (∀ c t, r = c :: t → isPySpace c = false) → pyStrip r = r := by
    intro r h1 h2
    unfold pyStrip
    have hdw : List.dropWhile isPySpace r = r := by
      cases hr : r with
      | nil => rfl
      | cons c t =>
        rw [List.dropWhile_cons, if_neg]
        rw [h2 c t hr]
        simp
    rw [hdw, h1, r.reverse_reverse]
  set u := List.dropWhile isPySpace s with hu
  set r := (List.dropWhile isPySpace u.reverse).reverse with hr
  have h1 : List.dropWhile isPySpace r.reverse = r.reverse := by
    rw [hr, List.reverse_reverse]
    exact dropWhile_idem _ _
  apply key r h1
  intro c t hct
  obtain ⟨a, ha⟩ := List.dropWhile_suffix (l := u.reverse) isPySpace
  have hu2 : u = r ++ a.reverse := by
    have := congrArg List.reverse ha
    rw [List.reverse_append, List.reverse_reverse] at this
    rw [hr, this]
  have : u = c :: (t ++ a.reverse) := by rw [hu2, hct]; simp
  exact dropWhile_head_false isPySpace s c _ this

theorem pyStrip_append_spaces (pre s : List Char) (h : ∀ c ∈ pre, isPySpace c = true) :
    pyStrip (pre ++ s) = pyStrip s := by
  unfold pyStrip
  congr 1
  congr 1
  congr 1
  induction pre with
  | nil => rfl
  | cons a t ih =>
    rw [List.cons_append, List.dropWhile_cons, if_pos (h a (by simp))]
    exact ih (fun c hc => h c (by simp [hc]))

theorem lowerL_pyStrip_comm (s : List Char) : pyStrip (lowerL s) = lowerL (pyStrip s) := by
  unfold pyStrip lowerL
  have hp : (isPySpace ∘ Char.toLower) = isPySpace := by
    funext c
    exact isPySpace_toLower c
  rw [List.dropWhile_map, hp, ← List.map_reverse, List.dropWhile_map, hp, ← List.map_reverse]

theorem lowerL_idem (s : List Char) : lowerL (lowerL s) = lowerL s := by
  unfold lowerL
  rw [List.map_map]
  apply List.map_congr_left
  intro c _
  exact toLower_toLower c

theorem lowerL_eq_self_of_all (s : List Char) (h : ∀ c ∈ s, Char.toLower c = c) :
    lowerL s = s := by
  unfold lowerL
  conv_rhs => rw [← List.map_id s]
  exact List.map_congr_left h

theorem splitComma_cons_eq (c : Char) (rest p : List Char) (ps : List (List Char))
    (h : splitComma rest = p :: ps) :
    splitComma (c :: rest) = if c = ',' then [] :: p :: ps else (c :: p) :: ps := by
  unfold splitComma
  rw [h]

theorem splitComma_cons_nil_eq (c : Char) (rest : List Char)
    (h : splitComma rest = []) : splitComma (c :: rest) = [[]] := by
  unfold splitComma
  rw [h]

theorem splitComma_ne_nil (s : List Char) : splitComma s ≠ [] := by
  cases s with
  | nil => simp [splitComma]
  | cons c rest =>
    cases h : splitComma rest with
    | nil => rw [splitComma_cons_nil_eq c rest h]; simp
    | cons p ps =>
      rw [splitComma_cons_eq c rest p ps h]
      by_cases hc : c = ','
      · rw [if_pos hc]; simp
      · rw [if_neg hc]; simp

theorem not_mem_of_mem_splitComma (s p : List Char) (h : p ∈ splitComma s) : ',' ∉ p := by
  induction s generalizing p with
  | nil =>
    simp [splitComma] at h
    simp [h]
  | cons c rest ih =>
    cases hs : splitComma rest with
    | nil => exact absurd hs (splitComma_ne_nil rest)
    | cons q qs =>
      rw [splitComma_cons_eq c rest q qs hs] at h
      by_cases hc : c = ','
      · rw [if_pos hc] at h
        rcases List.mem_cons.mp h with h1 | h1
        · simp [h1]
        · exact ih p (by rw [hs]; exact h1)
      · rw [if_neg hc] at h
        rcases List.mem_cons.mp h with h1 | h1
        · subst h1
          intro hm
          rcases List.mem_cons.mp hm with h2 | h2
          · exact hc h2.symm
          · exact ih q (by rw [hs]; simp) h2
        · exact ih p (by rw [hs]; simp [h1])

theorem splitComma_of_no_comma (s : List Char) (h : ',' ∉ s) : splitComma s = [s] := by
  induction s with
  | nil => rfl
  | cons c rest ih =>
    have hrest : splitComma rest = [rest] := ih (fun hm => h (by simp [hm]))
    rw [splitComma_cons_eq c rest rest [] hrest]
    rw [if_neg (fun hc => h (by simp [hc]))]

theorem splitComma_append_comma (a b : List Char) (h : ',' ∉ a) :
    splitComma (a ++ ',' :: b) = a :: splitComma b := by
  induction a with
  | nil =>
    simp only [List.nil_append]
    cases hb : splitComma b with
    | nil => exact absurd hb (splitComma_ne_nil b)
    | cons p ps =>
      rw [splitComma_cons_eq ',' b p ps hb, if_pos rfl]
  | cons c a' ih =>
    have hc : c ≠ ',' := fun hc => h (by simp [hc])
    have h' : ',' ∉ a' := fun hm => h (by simp [hm])
    rw [List.cons_append]
    cases hb : splitComma b with
    | nil => exact absurd hb (splitComma_ne_nil b)
    | cons p ps =>
      rw [splitComma_cons_eq c (a' ++ ',' :: b) a' (p :: ps) (by rw [ih h', hb])]
      rw [if_neg hc]

theorem mem_dedupSeen (x : List Char) :
    ∀ (l seen : List (List Char)), x ∈ dedupSeen seen l ↔ x ∈ l ∧ x ∉ seen := by
  intro l
  induction l with
  | nil => intro seen; simp [dedupSeen]
  | cons a t ih =>
    intro seen
    unfold dedupSeen
    by_cases ha : a ∈ seen
    · rw [if_pos ha, ih seen]
      constructor
      · rintro ⟨h1, h2⟩
        exact ⟨by simp [h1], h2⟩
      · rintro ⟨h1, h2⟩
        rcases List.mem_cons.mp h1 with h3 | h3
        · exact absurd (h3 ▸ ha) h2
        · exact ⟨h3, h2⟩
    · rw [if_neg ha]
      constructor
      · intro h1
        rcases List.mem_cons.mp h1 with h3 | h3
        · subst h3; exact ⟨by simp, ha⟩
        · have := (ih (a :: seen)).mp h3
          exact ⟨by simp [this.1], fun hm => this.2 (by simp [hm])⟩
      · rintro ⟨h1, h2⟩
        rcases List.mem_cons.mp h1 with h3 | h3
        · simp [h3]
        · by_cases hx : x = a
          · simp [hx]
          · right
            exact (ih (a :: seen)).mpr ⟨h3, by simp [hx, h2]⟩

theorem mem_insertLex (a x : List Char) (l : List (List Char)) :
    a ∈ insertLex x l ↔ a = x ∨ a ∈ l := by
  induction l with
  | nil => simp [insertLex]
  | cons y ys ih =>
    unfold insertLex
    by_cases h : lexLe x y = true
    · rw [if_pos h]; simp
    · rw [if_neg h]
      simp only [List.mem_cons, ih]
      tauto

theorem mem_sortStrs (a : List Char) (l : List (List Char)) :
    a ∈ sortStrs l ↔ a ∈ l := by
  induction l with
  | nil => simp [sortStrs]
  | cons x xs ih =>
    unfold sortStrs
    rw [mem_insertLex, ih]
    simp

end PyStr

namespace DomainAliases

open PyStr

/-- Characters kept by the subdomain sanitizer regex, the class denoted
a-z, 0-9 and hyphen in the source pattern. -/
def isSubdomainChar (c : Char) : Bool :=
  (97 ≤ c.toNat && c.toNat ≤ 122) || (48 ≤ c.toNat && c.toNat ≤ 57) || c.toNat = 45

/-- Removal of one leading URL scheme, the anchored case-insensitive
substitution in the source; it runs after lowering, so matching the
lowercase literals is exact. -/
def stripScheme (s : List Char) : List Char :=
  if s.take 8 = "https://".data then s.drop 8
  else if s.take 7 = "http://".data then s.drop 7
  else s

/-- Embedding of the source's domain normalization: strip, lower, drop one
leading scheme, then keep only the part before the first slash. -/
def normalize_domain (value : List Char) : List Char :=
  let cleaned := lowerL (pyStrip value)
  let cleaned := stripScheme cleaned
  if '/' ∈ cleaned then cleaned.takeWhile (fun c => ¬(c = '/')) else cleaned

/-- Embedding of the source's subdomain normalization: strip, lower, turn
spaces into hyphens, then drop every character outside a-z, 0-9, hyphen. -/
def normalize_subdomain (value : List Char) : List Char :=
  let cleaned := (lowerL (pyStrip value)).map (fun c => if c = ' ' then '-' else c)
  cleaned.filter isSubdomainChar

theorem isSubdomainChar_not_space (c : Char) (h : isSubdomainChar c = true) :
    isPySpace c = false := by
  apply isPySpace_eq_false_of_ge
  simp only [isSubdomainChar, Bool.or_eq_true, Bool.and_eq_true, decide_eq_true_eq] at h
  omega

theorem isSubdomainChar_toLower (c : Char) (h : isSubdomainChar c = true) :
    Char.toLower c = c := by
  apply toLower_eq_of_not_upper
  simp only [isSubdomainChar, Bool.or_eq_true, Bool.and_eq_true, decide_eq_true_eq] at h
  omega

theorem isSubdomainChar_ne_space (c : Char) (h : isSubdomainChar c = true) :
    c ≠ ' ' := by
  intro he
  have := isSubdomainChar_not_space c h
  rw [he] at this
  simp [isPySpace] at this

theorem mem_normalize_subdomain_sanitized (x : List Char) (c : Char)
    (h : c ∈ normalize_subdomain x) : isSubdomainChar c = true := by
  unfold normalize_subdomain at h
  exact (List.mem_filter.mp h).2

theorem normalize_subdomain_idem (x : List Char) :
    normalize_subdomain (normalize_subdomain x) = normalize_subdomain x := by
  have hchar : ∀ c ∈ normalize_subdomain x, isSubdomainChar c = true :=
    fun c hc => mem_normalize_subdomain_sanitized x c hc
  conv_lhs => rw [normalize_subdomain]
  rw [pyStrip_eq_self_of_all _ (fun c hc => isSubdomainChar_not_space c (hchar c hc))]
  rw [lowerL_eq_self_of_all _ (fun c hc => isSubdomainChar_toLower c (hchar c hc))]
  have hmap : (normalize_subdomain x).map (fun c => if c = ' ' then '-' else c) =
      normalize_subdomain x := by
    conv_rhs => rw [← List.map_id (normalize_subdomain x)]
    apply List.map_congr_left
    intro c hc
    rw [if_neg (isSubdomainChar_ne_space c (hchar c hc))]
    rfl
  rw [hmap]
  exact List.filter_eq_self.mpr hchar

theorem mem_normalize_domain_lower (x : List Char) (c : Char)
    (h : c ∈ normalize_domain x) : Char.toLower c = c := by
  unfold normalize_domain at h
  simp only [] at h
  have hmem : c ∈ lowerL (pyStrip x) := by
    have step : ∀ d : Char, d ∈ stripScheme (lowerL (pyStrip x)) → d ∈ lowerL (pyStrip x) := by
      intro d hd
      unfold stripScheme at hd
      split at hd
      · exact (List.drop_sublist _ _).mem hd
      · split at hd
        · exact (List.drop_sublist _ _).mem hd
        · exact hd
    split at h
    · exact step c ((List.takeWhile_sublist _).mem h)
    · exact step c h
  unfold lowerL at hmem
  obtain ⟨d, _, hd⟩ := List.mem_map.mp hmem
  rw [← hd]
  exact toLower_toLower d

theorem not_slash_mem_normalize_domain (x : List Char) :
    '/' ∉ normalize_domain x := by
  unfold normalize_domain
  simp only []
  split
  · intro h
    have := List.mem_takeWhile_imp h
    simp at this
  · intro h
    simp_all

theorem normalize_domain_idem_strip (x : List Char) :
    normalize_domain (normalize_domain x) = pyStrip (normalize_domain x) := by
  set y := normalize_domain x with hy
  have hlow : ∀ c ∈ y, Char.toLower c = c := fun c hc => mem_normalize_domain_lower x c hc
  have hslash : '/' ∉ y := not_slash_mem_normalize_domain x
  set z := pyStrip y with hz
  have hzy : ∀ c ∈ z, c ∈ y := fun c hc => mem_pyStrip y c hc
  have hzslash : '/' ∉ z := fun h => hslash (hzy '/' h)
  unfold normalize_domain
  rw [← hz]
  rw [lowerL_eq_self_of_all z (fun c hc => hlow c (hzy c hc))]
  have hscheme : stripScheme z = z := by
    unfold stripScheme
    rw [if_neg, if_neg]
    · intro htake
      apply hzslash
      apply (List.take_sublist 7 z).mem
      rw [htake]
      decide
    · intro htake
      apply hzslash
      apply (List.take_sublist 8 z).mem
      rw [htake]
      decide
  simp only [hscheme]
  rw [if_neg hzslash]

end DomainAliases

namespace SettingsStore

open PyStr

/-- Rows of the app_settings table as a key-to-value association list; the
upsert statement of update_settings replaces the value on key conflict.
Stored values are modelled as non-null strings. -/
abbrev Store := List (List Char × List Char)

/-- Lookup of a stored row by key. -/
def lookupKey : Store → List Char → Option (List Char)
  | [], _ => none
  | (k', v) :: t, k => if k' = k then some v else lookupKey t k

/-- Single-key upsert, the insert-on-conflict-update statement of the
settings service. -/
def upsert : Store → List Char → List Char → Store
  | [], k, v => [(k, v)]
  | (k', v') :: t, k, v => if k' = k then (k, v) :: t else (k', v') :: upsert t k v

/-- update_settings applies the upsert statement per key. -/
def update_settings (store : Store) (updates : List (List Char × List Char)) : Store :=
  updates.foldl (fun st kv => upsert st kv.1 kv.2) store

/-- DEFAULT_SETTINGS of the settings service.  The SERVER_PUBLIC_IP
environment variable is modelled as unset, so public_ip defaults empty. -/
def DEFAULT_SETTINGS : Store :=
  [("site_name".data, "Sanex Group".data),
   ("local_ip".data, "127.0.0.1".data),
   ("public_ip".data, []),
   ("ssl_hosts".data, "sanexgroup.com".data)]

/-- One key of the merged view produced by get_settings: stored rows overlay
the built-in defaults. -/
def get_setting (store : Store) (k : List Char) : Option (List Char) :=
  match lookupKey store k with
  | some v => some v
  | none => lookupKey DEFAULT_SETTINGS k

end SettingsStore

namespace DomainAliases

open PyStr

/-- A row of the domain_aliases table (created_at is never consulted by the
claims and is omitted). -/
structure AliasRow where
  id : List Char
  base_domain : List Char
  subdomain : List Char
  masked_subdomain : List Char
deriving DecidableEq

/-- The domain_aliases table contents. -/
abbrev Db := List AliasRow

/-- Alphabet of generated masked labels: lowercase letters then digits. -/
def _RANDOM_ALPHABET : List Char := "abcdefghijklmnopqrstuvwxyz0123456789".data

/-- generate_masked_subdomain: max(8, length) characters drawn from the
lowercase-plus-digit alphabet.  The cryptographic choice per position is
modelled by the draw stream rand, reduced modulo the alphabet size. -/
def generate_masked_subdomain (rand : Nat → Nat) (length : Nat) : List Char :=
  (List.range (max 8 length)).map (fun i => _RANDOM_ALPHABET.getD (rand i % 36) 'a')

/-- The uniqueness probe of _masked_exists: is there a row with this
(base_domain, masked_subdomain) pair. -/
def masked_exists (db : Db) (b m : List Char) : Bool :=
  db.any (fun r => r.base_domain == b && r.masked_subdomain == m)

/-- _join_host of the source. -/
def join_host (sub base : List Char) : List Char :=
  let s := pyStrip sub
  if s = [] then base
  else if base = [] then s
  else s ++ '.' :: base

/-- _host_to_url of the source. -/
def host_to_url (host : List Char) : List Char :=
  if host = [] then [] else "https://".data ++ host

/-- The decorated alias row returned by create_alias and list_aliases. -/
structure AliasView where
  id : List Char
  base_domain : List Char
  subdomain : List Char
  masked_subdomain : List Char
  target_host : List Char
  masked_host : List Char
  target_url : List Char
  masked_url : List Char
deriving DecidableEq

/-- _decorate_alias_row applied to a freshly fetched row. -/
def decorate (r : AliasRow) : AliasView :=
  let target := join_host r.subdomain r.base_domain
  let masked := join_host r.masked_subdomain r.base_domain
  { id := r.id
    base_domain := r.base_domain
    subdomain := r.subdomain
    masked_subdomain := r.masked_subdomain
    target_host := target
    masked_host := masked
    target_url := host_to_url target
    masked_url := host_to_url masked }

/-- The merged ssl_hosts value read by _sync_ssl_hosts: the stored setting
overlaid on the default, with the or-empty guard of the source. -/
def ssl_hosts_value (store : SettingsStore.Store) : List Char :=
  (SettingsStore.get_setting store "ssl_hosts".data).getD []

/-- The current_hosts set comprehension of _sync_ssl_hosts: split the
setting at commas, keep non-blank items, strip-lower each, as a set. -/
def parseHostSet (v : List Char) : List (List Char) :=
  dedupSeen []
    (((splitComma v).filter (fun i => i ≠ [] && pyStrip i ≠ [])).map
      (fun i => lowerL (pyStrip i)))

/-- The add-if-missing loop of _sync_ssl_hosts, with its changed flag. -/
def sslMergeLoop : List (List Char) → List (List Char) → Bool → List (List Char) × Bool
  | [], cur, ch => (cur, ch)
  | h :: t, cur, ch =>
    if h ∈ cur then sslMergeLoop t cur ch else sslMergeLoop t (cur ++ [h]) true

/-- The normalized_hosts list comprehension of _sync_ssl_hosts: keep truthy
hosts, strip-lower each. -/
def normalized_hosts (hosts : List (List Char)) : List (List Char) :=
  (hosts.filter (fun h => h ≠ [])).map (fun h => lowerL (pyStrip h))

/-- _sync_ssl_hosts: merge the lowered non-empty hosts into the ssl_hosts
setting, writing the sorted comma-joined set back only when it grew. -/
def _sync_ssl_hosts (store : SettingsStore.Store) (hosts : List (List Char)) :
    SettingsStore.Store :=
  if normalized_hosts hosts = [] then store
  else if (sslMergeLoop (normalized_hosts hosts)
      (parseHostSet (ssl_hosts_value store)) false).2 then
    SettingsStore.upsert store "ssl_hosts".data
      (joinCommaSpace (sortStrs (sslMergeLoop (normalized_hosts hosts)
        (parseHostSet (ssl_hosts_value store)) false).1))
  else store

/-- Outcome of create_alias.  The source raises ValueError at two distinct
sites; validationError is the empty-base message, collisionError the
masked-label exhaustion message.  In both cases the raise precedes every
write, so the error constructors carry no state. -/
inductive AliasResult where
  | validationError : AliasResult
  | collisionError : AliasResult
  | ok (view : AliasView) (db : Db) (store : SettingsStore.Store) : AliasResult
deriving DecidableEq

/-- The regeneration while-loop of create_alias: while the label collides
and fewer than five attempts were made, draw a fresh label.  fuel counts the
remaining attempts, idx the next draw index. -/
def regenLoop (db : Db) (base : List Char) (gen : Nat → List Char) :
    Nat → Nat → List Char → List Char
  | _, 0, masked => masked
  | idx, fuel + 1, masked =>
    if masked_exists db base masked then regenLoop db base gen (idx + 1) fuel (gen idx)
    else masked

/-- The candidate label before collision handling: the normalized explicit
label when one was supplied and non-empty after normalization, otherwise the
first generated draw.  Also returns the next unused draw index. -/
def initial_masked (gen : Nat → List Char) (masked_subdomain : Option (List Char)) :
    List Char × Nat :=
  let masked0 := match masked_subdomain with
    | some m => if m ≠ [] then normalize_subdomain m else []
    | none => []
  if masked0 = [] then (gen 0, 1) else (masked0, 0)

/-- The per-call stream of generated labels: the k-th
generate_masked_subdomain() call inside one create_alias, at the default
length of 24. -/
def gen_stream (rand : Nat → Nat → Nat) : Nat → List Char :=
  fun k => generate_masked_subdomain (rand k) 24

/-- The masked label create_alias settles on before its final collision
check: the initial candidate, run through the bounded regeneration loop
when it collides. -/
def chosen_masked (db : Db) (rand : Nat → Nat → Nat) (base : List Char)
    (m : Option (List Char)) : List Char :=
  if masked_exists db base (initial_masked (gen_stream rand) m).1 then
    regenLoop db base (gen_stream rand) (initial_masked (gen_stream rand) m).2 5
      (initial_masked (gen_stream rand) m).1
  else (initial_masked (gen_stream rand) m).1

/-- The row create_alias inserts. -/
def new_row (db : Db) (rand : Nat → Nat → Nat) (newId b s : List Char)
    (m : Option (List Char)) : AliasRow :=
  ⟨newId, normalize_domain b, normalize_subdomain s,
    chosen_masked db rand (normalize_domain b) m⟩

/-- create_alias over explicit state: db is the domain_aliases table, store
the settings table, rand the stream of random draws (rand k is the draw
stream of the k-th generate_masked_subdomain call), newId the uuid hex.
When the initial candidate is fresh the final collision re-check trivially
passes, so it is performed unconditionally here. -/
def create_alias (db : Db) (store : SettingsStore.Store) (rand : Nat → Nat → Nat)
    (newId : List Char) (base_domain subdomain : List Char)
    (masked_subdomain : Option (List Char)) : AliasResult :=
  if normalize_domain base_domain = [] then .validationError
  else if masked_exists db (normalize_domain base_domain)
      (chosen_masked db rand (normalize_domain base_domain) masked_subdomain) then
    .collisionError
  else
    .ok (decorate (new_row db rand newId base_domain subdomain masked_subdomain))
      (db ++ [new_row db rand newId base_domain subdomain masked_subdomain])
      (_sync_ssl_hosts store
        [join_host (normalize_subdomain subdomain) (normalize_domain base_domain),
         join_host (chosen_masked db rand (normalize_domain base_domain) masked_subdomain)
           (normalize_domain base_domain)])

end DomainAliases

namespace DomainAliases

open PyStr

theorem length_RANDOM_ALPHABET : _RANDOM_ALPHABET.length = 36 := by
  decide

theorem generate_masked_subdomain_length (rand : Nat → Nat) (n : Nat) :
    (generate_masked_subdomain rand n).length = max 8 n := by
  unfold generate_masked_subdomain
  rw [List.length_map, List.length_range]

theorem generate_masked_subdomain_mem_alphabet (rand : Nat → Nat) (n : Nat) (c : Char)
    (h : c ∈ generate_masked_subdomain rand n) : c ∈ _RANDOM_ALPHABET := by
  unfold generate_masked_subdomain at h
  obtain ⟨i, _, hi⟩ := List.mem_map.mp h
  rw [← hi]
  have hlt : rand i % 36 < _RANDOM_ALPHABET.length := by
    rw [length_RANDOM_ALPHABET]
    exact Nat.mod_lt _ (by norm_num)
  rw [List.getD_eq_getElem _ _ hlt]
  exact List.getElem_mem hlt

theorem regenLoop_all_collide (db : Db) (base : List Char) (gen : Nat → List Char)
    (hgen : ∀ k, masked_exists db base (gen k) = true) :
    ∀ (fuel idx : Nat) (m0 : List Char), masked_exists db base m0 = true →
      masked_exists db base (regenLoop db base gen idx fuel m0) = true := by
  intro fuel
  induction fuel with
  | zero => intro idx m0 h0; exact h0
  | succ n ih =>
    intro idx m0 h0
    unfold regenLoop
    rw [if_pos h0]
    exact ih (idx + 1) (gen idx) (hgen idx)

/-- C1.  create_alias fails with the validation error when the normalized
base domain is empty (and inserts nothing, the error constructors carrying
no state); a successful call returns a decorated row whose
(base_domain, masked_subdomain) pair was absent from the table, appending
exactly that row; and when the initial candidate collides and every
regenerated label still collides, the call fails with the collision error
after the bounded retry loop. -/
theorem claim_C1_create_alias_uniqueness (db : Db) (store : SettingsStore.Store)
    (rand : Nat → Nat → Nat) (newId b s : List Char) (m : Option (List Char)) :
    (normalize_domain b = [] →
      create_alias db store rand newId b s m = .validationError) ∧
    (∀ view db' store', create_alias db store rand newId b s m = .ok view db' store' →
      masked_exists db view.base_domain view.masked_subdomain = false ∧
      db' = db ++ [⟨view.id, view.base_domain, view.subdomain, view.masked_subdomain⟩]) ∧
    (normalize_domain b ≠ [] →
      (∀ k, masked_exists db (normalize_domain b) (gen_stream rand k) = true) →
      masked_exists db (normalize_domain b)
        (initial_masked (gen_stream rand) m).1 = true →
      create_alias db store rand newId b s m = .collisionError) := by
  refine ⟨?_, ?_, ?_⟩
  · intro hb
    unfold create_alias
    rw [if_pos hb]
  · intro view db' store' h
    unfold create_alias at h
    split at h
    · exact absurd h (by simp)
    · split at h
      · exact absurd h (by simp)
      · rename_i hbase hmask
        injection h with h1 h2 h3
        subst h1
        subst h2
        constructor
        · simpa [decorate, new_row] using hmask
        · simp [decorate, new_row]
  · intro hb hgen hinit
    have hch : masked_exists db (normalize_domain b)
        (chosen_masked db rand (normalize_domain b) m) = true := by
      unfold chosen_masked
      rw [if_pos hinit]
      exact regenLoop_all_collide db (normalize_domain b) _ hgen 5 _ _ hinit
    unfold create_alias
    rw [if_neg hb, if_pos hch]

/-- C1 witness: with a table already holding the only label the generator
can produce, a creation that regenerates five times still collides and
fails with the collision error. -/
theorem claim_C1_create_alias_uniqueness_witness :
    create_alias [⟨"i".data, "example.com".data, [], "abcdefghijklmnopqrstuvwx".data⟩]
      [] (fun _ i => i) "id2".data "example.com".data [] none = .collisionError := by
  have hk : masked_exists
      [⟨"i".data, "example.com".data, [], "abcdefghijklmnopqrstuvwx".data⟩]
      (normalize_domain "example.com".data)
      (generate_masked_subdomain (fun i => i) 24) = true := by decide
  exact (claim_C1_create_alias_uniqueness
    [⟨"i".data, "example.com".data, [], "abcdefghijklmnopqrstuvwx".data⟩]
    [] (fun _ i => i) "id2".data "example.com".data [] none).2.2
    (by decide) (fun _ => hk) (by decide)

/-- C9 counterexample: the spec asserts domain normalization is idempotent,
but an input whose slash-split leaves a trailing space is not a fixed point
of a second pass. -/
theorem claim_C9_counterexample :
    normalize_domain (normalize_domain "x.com /p".data) ≠
      normalize_domain "x.com /p".data := by
  decide

/-- C9 amended.  Subdomain normalization is idempotent for every input;
domain normalization satisfies the strip law: a second pass equals stripping
the first pass, hence is idempotent exactly when the first pass output
carries no outer whitespace (whitespace can survive one pass when it follows
a stripped scheme or precedes a slash). -/
theorem claim_C9_normalization_idempotency (x : List Char) :
    normalize_subdomain (normalize_subdomain x) = normalize_subdomain x ∧
    normalize_domain (normalize_domain x) = pyStrip (normalize_domain x) :=
  ⟨normalize_subdomain_idem x, normalize_domain_idem_strip x⟩

/-- C10.  A supplied masked label that normalizes to the empty string is
treated exactly like an absent one: the call proceeds with a freshly
generated label, and every generated default label has exactly 24
characters, all from the lowercase-plus-digit alphabet. -/
theorem claim_C10_blank_masked_label (db : Db) (store : SettingsStore.Store)
    (rand : Nat → Nat → Nat) (newId b s m : List Char) :
    (normalize_subdomain m = [] →
      create_alias db store rand newId b s (some m) =
        create_alias db store rand newId b s none) ∧
    (∀ r : Nat → Nat, (generate_masked_subdomain r 24).length = 24 ∧
      ∀ c ∈ generate_masked_subdomain r 24, c ∈ _RANDOM_ALPHABET) := by
  constructor
  · intro hm
    have him : initial_masked (gen_stream rand) (some m) =
        initial_masked (gen_stream rand) none := by
      unfold initial_masked
      simp [hm]
    have hch : chosen_masked db rand (normalize_domain b) (some m) =
        chosen_masked db rand (normalize_domain b) none := by
      unfold chosen_masked
      rw [him]
    have hrow : new_row db rand newId b s (some m) = new_row db rand newId b s none := by
      unfold new_row
      rw [hch]
    unfold create_alias
    rw [hch, hrow]
  · intro r
    refine ⟨?_, fun c hc => generate_masked_subdomain_mem_alphabet r 24 c hc⟩
    rw [generate_masked_subdomain_length]
    decide

/-- C10 witness: an all-whitespace masked label normalizes away and the call
falls back to the generated label, matching the call with no label. -/
theorem claim_C10_blank_masked_label_witness :
    create_alias [] [] (fun _ i => i) "id1".data "example.com".data "a".data
        (some " !".data) =
      create_alias [] [] (fun _ i => i) "id1".data "example.com".data "a".data none := by
  exact (claim_C10_blank_masked_label [] [] (fun _ i => i) "id1".data
    "example.com".data "a".data " !".data).1 (by decide)

end DomainAliases

namespace CloudflareSsl

open PyStr

/-- CloudflareConfig read from the environment at import time.  Unset and
empty environment variables are both falsy in the source and are modelled
as the empty string. -/
structure CloudflareConfig where
  account_id : List Char
  api_token : List Char
  auth_email : List Char
  auth_key : List Char
  zone_id : List Char
  ssl_hosts : List (List Char)
deriving DecidableEq

/-- build_headers: a complete email-and-key pair wins, else a bearer token,
else the configuration error. -/
def build_headers (cfg : CloudflareConfig) :
    Except (List Char) (List (List Char × List Char)) :=
  if cfg.auth_email ≠ [] ∧ cfg.auth_key ≠ [] then
    .ok [("Content-Type".data, "application/json".data),
         ("X-Auth-Email".data, cfg.auth_email),
         ("X-Auth-Key".data, cfg.auth_key)]
  else if cfg.api_token ≠ [] then
    .ok [("Content-Type".data, "application/json".data),
         ("Authorization".data, "Bearer ".data ++ cfg.api_token)]
  else .error "Cloudflare API bilgileri eksik (.env dosyanizi kontrol edin).".data

/-- require_zone_id: the configured zone or the configuration error. -/
def require_zone_id (cfg : CloudflareConfig) : Except (List Char) (List Char) :=
  if cfg.zone_id = [] then .error "CLOUDFLARE_ZONE_ID tanimli degil.".data
  else .ok cfg.zone_id

/-- _default_host_list: the ssl_hosts setting from the settings store,
comma-split, stripped, blanks dropped. -/
def _default_host_list (store : SettingsStore.Store) : List (List Char) :=
  ((splitComma ((SettingsStore.get_setting store "ssl_hosts".data).getD [])).filter
    (fun h => pyStrip h ≠ [])).map pyStrip

end CloudflareSsl

namespace CloudflareDns

open PyStr CloudflareSsl

/-- The provider-side A-record as consulted by the synchronizer; only the
record identifier is read from a lookup result. -/
structure DnsRecord where
  id : List Char
deriving DecidableEq

/-- The JSON payload sent on create and update. -/
structure DnsPayload where
  name : List Char
  content : List Char
  ttl : Nat
  proxied : Bool
deriving DecidableEq

/-- The provider calls sync_a_records can issue, in issue order: the
lookup-by-name GET, the create POST, the update PUT. -/
inductive DnsCall where
  | listRecords (zone host : List Char)
  | createRecord (zone : List Char) (payload : DnsPayload)
  | updateRecord (zone recordId : List Char) (payload : DnsPayload)
deriving DecidableEq

/-- The cleaned-list loop of _determine_hosts: strip each host, skip
blanks, lower the rest. -/
def cleanHosts : List (List Char) → List (List Char)
  | [] => []
  | h :: t => if pyStrip h = [] then cleanHosts t else lowerL (pyStrip h) :: cleanHosts t

/-- _determine_hosts: fall back to the CloudflareConfig ssl_hosts list when
hosts is omitted, clean, then deduplicate preserving first-seen order. -/
def _determine_hosts (cfg : CloudflareConfig) (hosts : Option (List (List Char))) :
    List (List Char) :=
  dedupSeen [] (cleanHosts (hosts.getD cfg.ssl_hosts))

/-- The default_proxied truthiness test of sync_a_records: auth_email or
api_token set. -/
def default_proxied (cfg : CloudflareConfig) : Bool :=
  decide (cfg.auth_email ≠ []) || decide (cfg.api_token ≠ [])

/-- The per-record proxied flag: the explicit override verbatim, else true
exactly when default_proxied holds. -/
def proxied_value (cfg : CloudflareConfig) (proxied : Option Bool) : Bool :=
  match proxied with
  | some b => b
  | none => if default_proxied cfg then true else false

/-- The per-host upsert loop of sync_a_records over a pure model q of the
provider: q h is the result array of the lookup GET for exact name h (the
loop reads only its first element).  The pair returned is the (host,
action) result list (or the first error) together with the provider calls
issued in order; a headers failure surfaces at the first request, before
any call is issued.  Create and update responses are modelled as
successful. -/
def syncLoop (cfg : CloudflareConfig) (q : List Char → List DnsRecord)
    (zone ip : List Char) (pv : Bool) :
    List (List Char) → Except (List Char) (List (List Char × List Char)) × List DnsCall
  | [] => (.ok [], [])
  | h :: t =>
    match build_headers cfg with
    | .error e => (.error e, [])
    | .ok _ =>
      match (q h).head? with
      | some r =>
        ((syncLoop cfg q zone ip pv t).1.map (fun l => (h, "updated".data) :: l),
          .listRecords zone h ::
            .updateRecord zone r.id ⟨h, ip, 120, pv⟩ :: (syncLoop cfg q zone ip pv t).2)
      | none =>
        ((syncLoop cfg q zone ip pv t).1.map (fun l => (h, "created".data) :: l),
          .listRecords zone h ::
            .createRecord zone ⟨h, ip, 120, pv⟩ :: (syncLoop cfg q zone ip pv t).2)

/-- sync_a_records: validate the IP, the zone and the resolved host list,
then upsert per host in order with the fixed TTL of 120.  The second
component lists the provider calls issued. -/
def sync_a_records (cfg : CloudflareConfig) (q : List Char → List DnsRecord)
    (ip : List Char) (hosts : Option (List (List Char))) (proxied : Option Bool) :
    Except (List Char) (List (List Char × List Char)) × List DnsCall :=
  if ip = [] then (.error "Gecerli bir IP adresi bulunamadi.".data, [])
  else
    match require_zone_id cfg with
    | .error e => (.error e, [])
    | .ok zone =>
      if _determine_hosts cfg hosts = [] then
        (.error "Guncellenecek Cloudflare DNS host listesi bulunamadi.".data, [])
      else syncLoop cfg q zone ip (proxied_value cfg proxied) (_determine_hosts cfg hosts)

end CloudflareDns

namespace CloudflareDns

open PyStr CloudflareSsl

theorem cleanHosts_eq (l : List (List Char)) :
    cleanHosts l = ((l.map pyStrip).filter (fun v => v ≠ [])).map lowerL := by
  induction l with
  | nil => rfl
  | cons h t ih =>
    unfold cleanHosts
    by_cases hh : pyStrip h = []
    · rw [if_pos hh, ih]
      simp [hh]
    · rw [if_neg hh, ih]
      simp [hh]

theorem syncLoop_char (cfg : CloudflareConfig) (q : List Char → List DnsRecord)
    (zone ip : List Char) (pv : Bool) (hdrs : List (List Char × List Char))
    (hh : build_headers cfg = .ok hdrs) :
    ∀ l, (syncLoop cfg q zone ip pv l).1 =
        .ok (l.map fun h => (h, if (q h).head?.isSome then "updated".data
          else "created".data)) ∧
      (syncLoop cfg q zone ip pv l).2 = l.bind (fun h =>
        match (q h).head? with
        | some r => [.listRecords zone h, .updateRecord zone r.id ⟨h, ip, 120, pv⟩]
        | none => [.listRecords zone h, .createRecord zone ⟨h, ip, 120, pv⟩]) := by
  intro l
  induction l with
  | nil => exact ⟨rfl, rfl⟩
  | cons h t ih =>
    unfold syncLoop
    rw [hh]
    cases hq : (q h).head? with
    | some r =>
      have hne : q h ≠ [] := by
        intro he
        rw [he] at hq
        simp at hq
      simp [ih.1, ih.2, hq, hne]
      rfl
    | none =>
      have he : q h = [] := by
        cases hq' : q h with
        | nil => rfl
        | cons a b =>
          rw [hq'] at hq
          simp at hq
      simp [ih.1, ih.2, hq, he]
      rfl

theorem syncLoop_update_payload (cfg : CloudflareConfig) (q : List Char → List DnsRecord)
    (zone ip : List Char) (pv : Bool) :
    ∀ (l : List (List Char)) (z rid : List Char) (p : DnsPayload),
      DnsCall.updateRecord z rid p ∈ (syncLoop cfg q zone ip pv l).2 →
      p.content = ip ∧ p.ttl = 120 ∧ p.proxied = pv := by
  intro l
  induction l with
  | nil => intro z rid p hm; simp [syncLoop] at hm
  | cons h t ih =>
    intro z rid p hm
    unfold syncLoop at hm
    cases hhdr : build_headers cfg with
    | error e => rw [hhdr] at hm; simp at hm
    | ok hdrs =>
      rw [hhdr] at hm
      cases hq : (q h).head? with
      | some r =>
        rw [hq] at hm
        simp only [List.mem_cons] at hm
        rcases hm with h1 | h1 | h1
        · exact absurd h1 (by simp)
        · injection h1 with _ _ hp
          subst hp
          exact ⟨rfl, rfl, rfl⟩
        · exact ih z rid p h1
      | none =>
        rw [hq] at hm
        simp only [List.mem_cons] at hm
        rcases hm with h1 | h1 | h1
        · exact absurd h1 (by simp)
        · exact absurd h1 (by simp)
        · exact ih z rid p h1

theorem syncLoop_create_payload (cfg : CloudflareConfig) (q : List Char → List DnsRecord)
    (zone ip : List Char) (pv : Bool) :
    ∀ (l : List (List Char)) (z : List Char) (p : DnsPayload),
      DnsCall.createRecord z p ∈ (syncLoop cfg q zone ip pv l).2 →
      p.content = ip ∧ p.ttl = 120 ∧ p.proxied = pv := by
  intro l
  induction l with
  | nil => intro z p hm; simp [syncLoop] at hm
  | cons h t ih =>
    intro z p hm
    unfold syncLoop at hm
    cases hhdr : build_headers cfg with
    | error e => rw [hhdr] at hm; simp at hm
    | ok hdrs =>
      rw [hhdr] at hm
      cases hq : (q h).head? with
      | some r =>
        rw [hq] at hm
        simp only [List.mem_cons] at hm
        rcases hm with h1 | h1 | h1
        · exact absurd h1 (by simp)
        · exact absurd h1 (by simp)
        · exact ih z p h1
      | none =>
        rw [hq] at hm
        simp only [List.mem_cons] at hm
        rcases hm with h1 | h1 | h1
        · exact absurd h1 (by simp)
        · injection h1 with _ hp
          subst hp
          exact ⟨rfl, rfl, rfl⟩
        · exact ih z p h1

end CloudflareDns

namespace CloudflareDns

open PyStr CloudflareSsl

/-- C2.  With a non-empty IP, a configured zone, working credentials and a
non-empty resolved host list, sync first cleans the host list (strip, drop
blanks, lower, dedup keeping first-seen order), then, per host in that
order, reads only the first lookup result and issues an update to that
record's id when one exists and a create otherwise, always with the given
IP and the fixed TTL 120; the result pairs each host with its action in
processing order. -/
theorem claim_C2_sync_per_host (cfg : CloudflareConfig) (q : List Char → List DnsRecord)
    (ip : List Char) (hosts : List (List Char)) (proxied : Option Bool)
    (hdrs : List (List Char × List Char))
    (hip : ip ≠ []) (hzone : cfg.zone_id ≠ []) (hh : build_headers cfg = .ok hdrs)
    (hhosts : _determine_hosts cfg (some hosts) ≠ []) :
    (_determine_hosts cfg (some hosts) =
      dedupSeen [] (((hosts.map pyStrip).filter (fun v => v ≠ [])).map lowerL)) ∧
    (sync_a_records cfg q ip (some hosts) proxied).1 =
      .ok ((_determine_hosts cfg (some hosts)).map (fun h =>
        (h, if (q h).head?.isSome then "updated".data else "created".data))) ∧
    (sync_a_records cfg q ip (some hosts) proxied).2 =
      (_determine_hosts cfg (some hosts)).bind (fun h =>
        match (q h).head? with
        | some r => [.listRecords cfg.zone_id h,
            .updateRecord cfg.zone_id r.id ⟨h, ip, 120, proxied_value cfg proxied⟩]
        | none => [.listRecords cfg.zone_id h,
            .createRecord cfg.zone_id ⟨h, ip, 120, proxied_value cfg proxied⟩]) := by
  have hs : sync_a_records cfg q ip (some hosts) proxied =
      syncLoop cfg q cfg.zone_id ip (proxied_value cfg proxied)
        (_determine_hosts cfg (some hosts)) := by
    unfold sync_a_records
    rw [if_neg hip]
    unfold require_zone_id
    rw [if_neg hzone]
    dsimp only
    rw [if_neg hhosts]
  refine ⟨?_, ?_, ?_⟩
  · unfold _determine_hosts
    rw [show (some hosts).getD cfg.ssl_hosts = hosts from rfl, cleanHosts_eq]
  · rw [hs]
    exact (syncLoop_char cfg q cfg.zone_id ip (proxied_value cfg proxied) hdrs hh
      (_determine_hosts cfg (some hosts))).1
  · rw [hs]
    exact (syncLoop_char cfg q cfg.zone_id ip (proxied_value cfg proxied) hdrs hh
      (_determine_hosts cfg (some hosts))).2

/-- C2 witness: two hosts with mixed case, padding, a blank and a
duplicate; the first has an existing record and is updated, the second is
created, in cleaned order. -/
theorem claim_C2_sync_per_host_witness :
    (sync_a_records
      ⟨[], "tok".data, [], [], "z1".data, []⟩
      (fun h => if h = "a.example.com".data then [⟨"rec1".data⟩] else [])
      "203.0.113.5".data
      (some [" A.example.com ".data, [], "b.example.com".data, "a.example.com".data])
      none).1 =
      .ok [("a.example.com".data, "updated".data),
           ("b.example.com".data, "created".data)] := by
  have h := (claim_C2_sync_per_host
    ⟨[], "tok".data, [], [], "z1".data, []⟩
    (fun h => if h = "a.example.com".data then [⟨"rec1".data⟩] else [])
    "203.0.113.5".data
    [" A.example.com ".data, [], "b.example.com".data, "a.example.com".data]
    none
    [("Content-Type".data, "application/json".data),
     ("Authorization".data, "Bearer tok".data)]
    (by decide) (by decide) rfl (by decide)).2.1
  rw [h]
  rfl

/-- C8.  sync fails on an empty ipAddress, then on a missing zone, then on
an empty resolved host list, each time before any provider call (the call
list is empty).  The source signals all three through its provider-error
class with distinct messages; the zone message is the spec's
ConfigurationError, the other two its ValidationError. -/
theorem claim_C8_sync_validation (cfg : CloudflareConfig)
    (q : List Char → List DnsRecord) (ip : List Char)
    (hosts : Option (List (List Char))) (proxied : Option Bool) :
    (ip = [] → sync_a_records cfg q ip hosts proxied =
      (.error "Gecerli bir IP adresi bulunamadi.".data, [])) ∧
    (ip ≠ [] → cfg.zone_id = [] → sync_a_records cfg q ip hosts proxied =
      (.error "CLOUDFLARE_ZONE_ID tanimli degil.".data, [])) ∧
    (ip ≠ [] → cfg.zone_id ≠ [] → _determine_hosts cfg hosts = [] →
      sync_a_records cfg q ip hosts proxied =
        (.error "Guncellenecek Cloudflare DNS host listesi bulunamadi.".data, [])) := by
  refine ⟨?_, ?_, ?_⟩
  · intro h
    unfold sync_a_records
    rw [if_pos h]
  · intro hip hz
    unfold sync_a_records
    rw [if_neg hip]
    unfold require_zone_id
    rw [if_pos hz]
  · intro hip hz hh
    unfold sync_a_records
    rw [if_neg hip]
    unfold require_zone_id
    rw [if_neg hz]
    dsimp only
    rw [if_pos hh]

/-- C8 witness: the three failure shapes at concrete inputs, each issuing
no provider call. -/
theorem claim_C8_sync_validation_witness :
    (sync_a_records ⟨[], "tok".data, [], [], "z1".data, []⟩ (fun _ => []) []
        (some ["a.example.com".data]) none =
      (.error "Gecerli bir IP adresi bulunamadi.".data, [])) ∧
    (sync_a_records ⟨[], "tok".data, [], [], [], []⟩ (fun _ => []) "1.2.3.4".data
        (some ["a.example.com".data]) none =
      (.error "CLOUDFLARE_ZONE_ID tanimli degil.".data, [])) ∧
    (sync_a_records ⟨[], "tok".data, [], [], "z1".data, []⟩ (fun _ => []) "1.2.3.4".data
        (some [" ".data, ([] : List Char)]) none =
      (.error "Guncellenecek Cloudflare DNS host listesi bulunamadi.".data, [])) :=
  ⟨(claim_C8_sync_validation ⟨[], "tok".data, [], [], "z1".data, []⟩ (fun _ => []) []
      (some ["a.example.com".data]) none).1 rfl,
   (claim_C8_sync_validation ⟨[], "tok".data, [], [], [], []⟩ (fun _ => []) "1.2.3.4".data
      (some ["a.example.com".data]) none).2.1 (by decide) rfl,
   (claim_C8_sync_validation ⟨[], "tok".data, [], [], "z1".data, []⟩ (fun _ => [])
      "1.2.3.4".data (some [" ".data, ([] : List Char)]) none).2.2 (by decide) (by decide) (by decide)⟩

/-- C7 counterexample: with an auth email configured but no key and no
token, the defaulted proxied flag is enabled although no provider call can
be authenticated, refuting the claimed equivalence between the default and
the complete-credentials condition. -/
theorem claim_C7_counterexample :
    proxied_value ⟨[], [], "admin@example.com".data, [], "z1".data, []⟩ none = true ∧
    (build_headers ⟨[], [], "admin@example.com".data, [], "z1".data, []⟩).isOk = false := by
  decide

/-- C7 amended.  An explicit caller override is used verbatim; the default
is enabled exactly when auth_email or api_token is non-empty (the auth key
is not consulted, so the default can be enabled in configurations where
header construction fails); whenever headers can be built the default is
enabled; and every create or update payload carries the proxied flag
computed this way together with the given IP and TTL 120. -/
theorem claim_C7_proxied_default (cfg : CloudflareConfig)
    (q : List Char → List DnsRecord) (ip : List Char)
    (hosts : Option (List (List Char))) (proxied : Option Bool) (b : Bool) :
    (proxied_value cfg (some b) = b) ∧
    (proxied_value cfg none = true ↔ (cfg.auth_email ≠ [] ∨ cfg.api_token ≠ [])) ∧
    ((build_headers cfg).isOk = true → proxied_value cfg none = true) ∧
    (∀ (z rid : List Char) (p : DnsPayload),
      DnsCall.updateRecord z rid p ∈ (sync_a_records cfg q ip hosts proxied).2 →
      p.content = ip ∧ p.ttl = 120 ∧ p.proxied = proxied_value cfg proxied) ∧
    (∀ (z : List Char) (p : DnsPayload),
      DnsCall.createRecord z p ∈ (sync_a_records cfg q ip hosts proxied).2 →
      p.content = ip ∧ p.ttl = 120 ∧ p.proxied = proxied_value cfg proxied) := by
  have hcalls : ∀ c : DnsCall, c ∈ (sync_a_records cfg q ip hosts proxied).2 →
      ∃ zone, c ∈ (syncLoop cfg q zone ip (proxied_value cfg proxied)
        (_determine_hosts cfg hosts)).2 := by
    intro c hc
    unfold sync_a_records at hc
    split at hc
    · simp at hc
    · split at hc
      · simp at hc
      · split at hc
        · simp at hc
        · exact ⟨_, hc⟩
  refine ⟨rfl, ?_, ?_, ?_, ?_⟩
  · unfold proxied_value default_proxied
    constructor
    · intro h
      by_contra hn
      push_neg at hn
      rw [if_neg (by simp [hn.1, hn.2])] at h
      exact Bool.false_ne_true h
    · intro h
      rw [if_pos]
      simp only [Bool.or_eq_true, decide_eq_true_eq]
      tauto
  · intro h
    unfold build_headers at h
    unfold proxied_value default_proxied
    rw [if_pos]
    simp only [Bool.or_eq_true, decide_eq_true_eq]
    by_cases h1 : cfg.auth_email ≠ [] ∧ cfg.auth_key ≠ []
    · exact Or.inl h1.1
    · rw [if_neg h1] at h
      by_cases h2 : cfg.api_token ≠ []
      · exact Or.inr h2
      · rw [if_neg h2] at h
        simp [Except.isOk, Except.toBool] at h
  · intro z rid p hm
    obtain ⟨zone, hz⟩ := hcalls _ hm
    exact syncLoop_update_payload cfg q zone ip (proxied_value cfg proxied)
      (_determine_hosts cfg hosts) z rid p hz
  · intro z p hm
    obtain ⟨zone, hz⟩ := hcalls _ hm
    exact syncLoop_create_payload cfg q zone ip (proxied_value cfg proxied)
      (_determine_hosts cfg hosts) z p hz

/-- C7 witness: with only a bearer token configured, headers build and the
defaulted proxied flag is enabled; an explicit false override is used
verbatim. -/
theorem claim_C7_proxied_default_witness :
    proxied_value ⟨[], "tok".data, [], [], "z1".data, []⟩ none = true ∧
    proxied_value ⟨[], "tok".data, [], [], "z1".data, []⟩ (some false) = false :=
  ⟨(claim_C7_proxied_default ⟨[], "tok".data, [], [], "z1".data, []⟩ (fun _ => []) []
      none none false).2.2.1 (by decide),
   (claim_C7_proxied_default ⟨[], "tok".data, [], [], "z1".data, []⟩ (fun _ => []) []
      none (some false) false).1⟩

/-- Modelled from the claim's words, not from the source: the variant of
_determine_hosts the claim describes, whose omitted-hosts fallback draws
from the SettingsStore's ssl_hosts setting (through the certificate
service's _default_host_list).  The code's _determine_hosts instead falls
back to the static CLOUDFLARE_SSL_HOSTS environment list. -/
def determine_hosts_settings_spec (store : SettingsStore.Store)
    (hosts : Option (List (List Char))) : List (List Char) :=
  dedupSeen [] (cleanHosts (hosts.getD (_default_host_list store)))

/-- C3 counterexample: a host present only in the settings store's
ssl_hosts setting (as alias propagation would leave it) appears in the
claim's settings-drawn fallback but not in the code's fallback, which reads
only the static configuration list; with an empty configuration list the
two resolvers disagree. -/
theorem claim_C3_counterexample :
    ("alias.example.com".data ∈ determine_hosts_settings_spec
      [("ssl_hosts".data, "alias.example.com".data)] none) ∧
    ("alias.example.com".data ∉ _determine_hosts
      ⟨[], "tok".data, [], [], "z1".data, ["sanexgroup.com".data]⟩ none) ∧
    (_determine_hosts ⟨[], "tok".data, [], [], "z1".data, ["sanexgroup.com".data]⟩ none ≠
      determine_hosts_settings_spec [("ssl_hosts".data, "alias.example.com".data)] none) := by
  decide

/-- C3 amended.  When hosts is omitted, sync falls back to the static
CloudflareConfig ssl_hosts list from the environment, not to the
SettingsStore's host-list setting: omitting hosts is identical to passing
the configuration list explicitly, at the host-resolution level and for the
whole sync call. -/
theorem claim_C3_default_hosts_source (cfg : CloudflareConfig)
    (q : List Char → List DnsRecord) (ip : List Char) (proxied : Option Bool) :
    (_determine_hosts cfg none = _determine_hosts cfg (some cfg.ssl_hosts)) ∧
    (sync_a_records cfg q ip none proxied =
      sync_a_records cfg q ip (some cfg.ssl_hosts) proxied) :=
  ⟨rfl, rfl⟩

end CloudflareDns

namespace PublicIp

open PyStr

/-- The observable outcome of one endpoint attempt, combining the
endpoint's configuration (JSON field versus raw body) with its response:
exc is any exception raised during the attempt (connection error, timeout,
the non-2xx raise, JSON decoding); jsonOk is a 2xx response from a
field-annotated endpoint with the extracted field (none for a missing or
null field); rawOk is a 2xx response from a raw-text endpoint. -/
inductive EndpointOutcome where
  | exc (msg : List Char)
  | jsonOk (field : Option (List Char))
  | rawOk (body : List Char)
deriving DecidableEq

/-- The endpoint chain of the source, field name annotated or raw. -/
def IP_ENDPOINTS : List (List Char × Option (List Char)) :=
  [("https://api.ipify.org?format=json".data, some "ip".data),
   ("https://ifconfig.co/json".data, some "ip".data),
   ("https://checkip.amazonaws.com".data, none),
   ("https://ipv4.icanhazip.com".data, none)]

/-- The endpoint loop of fetch_public_ip with its last_error accumulator:
an exception is recorded and the loop continues; a truthy extracted field
or a raw body returns stripped; a falsy extracted field falls off the try
block and continues WITHOUT touching last_error; an exhausted chain raises
carrying the accumulator. -/
def fetchLoop : List EndpointOutcome → Option (List Char) →
    Except (Option (List Char)) (List Char)
  | [], last => .error last
  | .exc m :: rest, _ => fetchLoop rest (some m)
  | .jsonOk v :: rest, last =>
    match v with
    | some s => if s ≠ [] then .ok (pyStrip s) else fetchLoop rest last
    | none => fetchLoop rest last
  | .rawOk b :: _, _ => .ok (pyStrip b)

/-- fetch_public_ip over the outcomes of its endpoint chain, starting from
last_error = None. -/
def fetch_public_ip (outs : List EndpointOutcome) : Except (Option (List Char)) (List Char) :=
  fetchLoop outs none

/-- An attempt the source treats as a failure (it continues to the next
endpoint): an exception, or a missing or empty extracted field. -/
def failsOutcome : EndpointOutcome → Bool
  | .exc _ => true
  | .jsonOk none => true
  | .jsonOk (some s) => s = []
  | .rawOk _ => false

/-- The last recorded underlying error after a run of outcomes: only
exceptions update the accumulator. -/
def lastExc : List EndpointOutcome → Option (List Char) → Option (List Char)
  | [], acc => acc
  | .exc m :: rest, _ => lastExc rest (some m)
  | .jsonOk _ :: rest, acc => lastExc rest acc
  | .rawOk _ :: rest, acc => lastExc rest acc

theorem fetchLoop_cons_exc (m : List Char) (rest : List EndpointOutcome)
    (last : Option (List Char)) :
    fetchLoop (.exc m :: rest) last = fetchLoop rest (some m) := rfl

theorem fetchLoop_cons_json_some (s : List Char) (rest : List EndpointOutcome)
    (last : Option (List Char)) :
    fetchLoop (.jsonOk (some s) :: rest) last =
      if s ≠ [] then .ok (pyStrip s) else fetchLoop rest last := rfl

theorem fetchLoop_cons_json_none (rest : List EndpointOutcome)
    (last : Option (List Char)) :
    fetchLoop (.jsonOk none :: rest) last = fetchLoop rest last := rfl

theorem fetchLoop_cons_raw (b : List Char) (rest : List EndpointOutcome)
    (last : Option (List Char)) :
    fetchLoop (.rawOk b :: rest) last = .ok (pyStrip b) := rfl

theorem fetchLoop_skip_failures (pre : List EndpointOutcome) :
    ∀ (tail : List EndpointOutcome) (last : Option (List Char)),
      (∀ o ∈ pre, failsOutcome o = true) →
      fetchLoop (pre ++ tail) last = fetchLoop tail (lastExc pre last) := by
  induction pre with
  | nil => intro tail last _; rfl
  | cons o pre' ih =>
    intro tail last hf
    have hpre' : ∀ x ∈ pre', failsOutcome x = true := fun x hx => hf x (by simp [hx])
    cases o with
    | exc m =>
      rw [List.cons_append, fetchLoop_cons_exc]
      rw [show lastExc (EndpointOutcome.exc m :: pre') last = lastExc pre' (some m) from rfl]
      exact ih tail (some m) hpre'
    | jsonOk v =>
      cases v with
      | some s =>
        have hs : s = [] := by
          have := hf (.jsonOk (some s)) (by simp)
          simpa [failsOutcome] using this
        rw [List.cons_append, fetchLoop_cons_json_some]
        rw [if_neg (by simp [hs])]
        rw [show lastExc (EndpointOutcome.jsonOk (some s) :: pre') last = lastExc pre' last
          from rfl]
        exact ih tail last hpre'
      | none =>
        rw [List.cons_append, fetchLoop_cons_json_none]
        rw [show lastExc (EndpointOutcome.jsonOk none :: pre') last = lastExc pre' last
          from rfl]
        exact ih tail last hpre'
    | rawOk b =>
      have := hf (.rawOk b) (by simp)
      simp [failsOutcome] at this

/-- C5 counterexample: a single JSON endpoint whose extracted field is
empty exhausts the chain, yet no underlying error was recorded: the final
failure carries none, refuting the claim that every failure, including an
empty extracted field, is recorded as the last underlying error. -/
theorem claim_C5_counterexample :
    fetch_public_ip [.jsonOk (some [])] = .error none := by
  rfl

/-- C5 amended.  resolve returns the stripped value of the first endpoint
that succeeds (a truthy extracted field or a raw 2xx body), never touching
later endpoints; exceptions are recorded as the last underlying error, but
a missing or empty extracted field is skipped WITHOUT recording an error;
when every endpoint fails the result carries the last recorded exception,
which is absent when no exception-type failure occurred. -/
theorem claim_C5_first_success_and_last_error (pre post tail outs : List EndpointOutcome)
    (s bdy : List Char) (last : Option (List Char)) :
    ((∀ o ∈ pre, failsOutcome o = true) → s ≠ [] →
      fetch_public_ip (pre ++ .jsonOk (some s) :: post) = .ok (pyStrip s)) ∧
    ((∀ o ∈ pre, failsOutcome o = true) →
      fetch_public_ip (pre ++ .rawOk bdy :: post) = .ok (pyStrip bdy)) ∧
    (fetchLoop (.jsonOk (some []) :: tail) last = fetchLoop tail last) ∧
    (fetchLoop (.jsonOk none :: tail) last = fetchLoop tail last) ∧
    ((∀ o ∈ outs, failsOutcome o = true) →
      fetch_public_ip outs = .error (lastExc outs none)) := by
  refine ⟨?_, ?_, rfl, rfl, ?_⟩
  · intro hf hs
    unfold fetch_public_ip
    rw [fetchLoop_skip_failures pre _ none hf]
    rw [fetchLoop_cons_json_some, if_pos hs]
  · intro hf
    unfold fetch_public_ip
    rw [fetchLoop_skip_failures pre _ none hf]
    rw [fetchLoop_cons_raw]
  · intro hf
    unfold fetch_public_ip
    have h := fetchLoop_skip_failures outs [] none hf
    rw [List.append_nil] at h
    rw [h]
    rfl

/-- C5 witness: endpoints one and two fail (a network error, then an empty
extracted field), endpoint three returns the documented address, the
fourth is never consulted; and an exhausted chain of one exception plus one
empty field carries the exception, not the empty-field failure. -/
theorem claim_C5_first_success_and_last_error_witness :
    fetch_public_ip [.exc "boom".data, .jsonOk (some []),
        .jsonOk (some "203.0.113.9".data), .rawOk "9.9.9.9".data] =
      .ok "203.0.113.9".data ∧
    fetch_public_ip [.exc "e1".data, .jsonOk (some [])] = .error (some "e1".data) := by
  constructor
  · exact (claim_C5_first_success_and_last_error
      [.exc "boom".data, .jsonOk (some [])] [.rawOk "9.9.9.9".data] [] []
      "203.0.113.9".data [] none).1 (by decide) (by decide)
  · exact (claim_C5_first_success_and_last_error [] [] []
      [.exc "e1".data, .jsonOk (some [])] [] [] none).2.2.2.2 (by decide)

end PublicIp

namespace ProcessRunner

open PyStr

/-- What subprocess execution returns for a run that completes within its
timeout.  Timeouts raise before any result exists and are outside the
claims' scope, so execution is modelled as a total function. -/
structure ExecOutcome where
  returncode : Int
  stdout : List Char
  stderr : List Char
deriving DecidableEq

/-- The dictionary run_command builds from a completed process. -/
structure ExecResult where
  command : List Char
  returncode : Int
  stdout : List Char
  stderr : List Char
deriving DecidableEq

/-- Characters shlex.quote leaves unquoted (ASCII word characters and the
explicit safe punctuation of its unsafe-character pattern). -/
def isShlexSafe (c : Char) : Bool :=
  (97 ≤ c.toNat && c.toNat ≤ 122) || (65 ≤ c.toNat && c.toNat ≤ 90) ||
  (48 ≤ c.toNat && c.toNat ≤ 57) || c = '_' || c = '@' || c = '%' || c = '+' ||
  c = '=' || c = ':' || c = ',' || c = '.' || c = '/' || c = '-'

/-- The single-quote character, written by code point. -/
def squote : Char := Char.ofNat 39

/-- shlex.quote: empty becomes a pair of quotes, safe strings pass through,
anything else is single-quoted with embedded quotes escaped. -/
def shlexQuote (s : List Char) : List Char :=
  if s = [] then [squote, squote]
  else if s.all isShlexSafe then s
  else (squote :: (s.map (fun c =>
    if c = squote then [squote, '"', squote, '"', squote] else [c])).join) ++ [squote]

/-- Python " ".join. -/
def joinSpace : List (List Char) → List Char
  | [] => []
  | [p] => p
  | p :: ps => p ++ ' ' :: joinSpace ps

/-- run_command on an argument-vector command (the only shape the tunnel
service passes; the shlex.split branch for raw-string commands is not
exercised by these claims).  exec models subprocess.run on the argument
vector; timeout is carried but, execution being total here, unused. -/
def run_command (exec : List (List Char) → ExecOutcome) (args : List (List Char))
    (timeout : Nat) : ExecResult :=
  { command := joinSpace (args.map shlexQuote)
    returncode := (exec args).returncode
    stdout := pyStrip (exec args).stdout
    stderr := pyStrip (exec args).stderr }

end ProcessRunner

namespace CloudflareTunnel

open PyStr ProcessRunner

/-- A cloudflared_logs row (id and created_at are provider-side defaults
never consulted by the claims). -/
structure LogEntry where
  command : List Char
  stdout : List Char
  stderr : List Char
  status : List Char
deriving DecidableEq

/-- The append-only cloudflared_logs table. -/
abbrev Log := List LogEntry

/-- _store_log: the INSERT into cloudflared_logs. -/
def _store_log (log : Log) (command stdout stderr status : List Char) : Log :=
  log ++ [⟨command, stdout, stderr, status⟩]

/-- _run_and_log: run the command at the default timeout of 120, classify
success as return code zero, store one row, return the result.  Every exit
code flows through; nothing is raised. -/
def _run_and_log (exec : List (List Char) → ExecOutcome) (log : Log)
    (command : List (List Char)) : ExecResult × Log :=
  (run_command exec command 120,
   _store_log log (run_command exec command 120).command
     (run_command exec command 120).stdout
     (run_command exec command 120).stderr
     (if (run_command exec command 120).returncode = 0 then "success".data
      else "error".data))

/-- run_custom_command: reject blank commands before any execution or
logging, otherwise hand the raw string to a shell. -/
def run_custom_command (exec : List (List Char) → ExecOutcome) (log : Log)
    (raw : List Char) : Except (List Char) (ExecResult × Log) :=
  if pyStrip raw = [] then .error "Komut bos olamaz.".data
  else .ok (_run_and_log exec log ["/bin/sh".data, "-c".data, raw])

/-- C6.  A completed execution appends exactly one audit row, whose fields
mirror the result and whose status is the success marker exactly when the
return code is zero; the result itself is returned unchanged for every exit
code (non-zero is reported, never raised); and runCustom fails with the
validation error on a blank command, producing no execution and no log
entry, while a non-blank command runs through the shell and appends its one
row. -/
theorem claim_C6_audit_log (exec : List (List Char) → ExecOutcome) (log : Log)
    (command : List (List Char)) (raw : List Char) :
    ((_run_and_log exec log command).2 =
      log ++ [⟨(run_command exec command 120).command,
        (run_command exec command 120).stdout,
        (run_command exec command 120).stderr,
        if (run_command exec command 120).returncode = 0 then "success".data
        else "error".data⟩]) ∧
    ((_run_and_log exec log command).2.length = log.length + 1) ∧
    ((_run_and_log exec log command).1 = run_command exec command 120) ∧
    (∀ e : LogEntry, (_run_and_log exec log command).2 = log ++ [e] →
      (e.status = "success".data ↔ (run_command exec command 120).returncode = 0)) ∧
    (pyStrip raw = [] →
      run_custom_command exec log raw = .error "Komut bos olamaz.".data) ∧
    (pyStrip raw ≠ [] →
      run_custom_command exec log raw =
        .ok (_run_and_log exec log ["/bin/sh".data, "-c".data, raw])) := by
  refine ⟨rfl, by simp [_run_and_log, _store_log], rfl, ?_, ?_, ?_⟩
  · intro e he
    have h1 : (⟨(run_command exec command 120).command,
        (run_command exec command 120).stdout,
        (run_command exec command 120).stderr,
        if (run_command exec command 120).returncode = 0 then "success".data
        else "error".data⟩ : LogEntry) = e := by
      have h2 : log ++ [(⟨(run_command exec command 120).command,
          (run_command exec command 120).stdout,
          (run_command exec command 120).stderr,
          if (run_command exec command 120).returncode = 0 then "success".data
          else "error".data⟩ : LogEntry)] = log ++ [e] := he
      have h3 := List.append_cancel_left h2
      simpa using h3
    rw [← h1]
    by_cases hrc : (run_command exec command 120).returncode = 0
    · simp [hrc]
    · simp only [hrc, if_false, iff_false, if_neg hrc]
      decide
  · intro h
    unfold run_custom_command
    rw [if_pos h]
  · intro h
    unfold run_custom_command
    rw [if_neg h]

/-- C6 witness: the documented scenario, echo hi through the shell: return
code zero, stripped stdout hi, one appended row with the success status;
and the blank command is rejected. -/
theorem claim_C6_audit_log_witness :
    (run_custom_command
        (fun _ => ⟨0, "hi
".data, []⟩) [] "echo hi".data =
      .ok (_run_and_log (fun _ => ⟨0, "hi
".data, []⟩) [] ["/bin/sh".data, "-c".data, "echo hi".data])) ∧
    ((_run_and_log (fun _ => ⟨0, "hi
".data, []⟩) [] ["/bin/sh".data, "-c".data, "echo hi".data]).2.map
        (fun e => (e.stdout, e.status)) = [("hi".data, "success".data)]) ∧
    ((_run_and_log (fun _ => ⟨0, "hi
".data, []⟩) [] ["/bin/sh".data, "-c".data, "echo hi".data]).1.returncode = 0) ∧
    (run_custom_command (fun _ => ⟨0, [], []⟩) [] "   ".data =
      .error "Komut bos olamaz.".data) := by
  refine ⟨?_, by decide, by decide, ?_⟩
  · exact (claim_C6_audit_log (fun _ => ⟨0, "hi
".data, []⟩) [] [] "echo hi".data).2.2.2.2.2 (by decide)
  · exact (claim_C6_audit_log (fun _ => ⟨0, [], []⟩) [] [] "   ".data).2.2.2.2.1 (by decide)

end CloudflareTunnel

namespace DomainAliases

open PyStr

/-- A string that round-trips through the ssl_hosts storage format:
non-empty, comma-free, and invariant under strip and lower. -/
def hostClean (e : List Char) : Prop :=
  e ≠ [] ∧ ',' ∉ e ∧ pyStrip e = e ∧ lowerL e = e

theorem mem_parseHostSet_iff (v : List Char) (e : List Char) :
    e ∈ parseHostSet v ↔
      e ∈ ((splitComma v).filter (fun i => i ≠ [] && pyStrip i ≠ [])).map
        (fun i => lowerL (pyStrip i)) := by
  unfold parseHostSet
  rw [mem_dedupSeen]
  simp

theorem toLower_eq_comma (d : Char) (h : Char.toLower d = ',') : d = ',' := by
  by_cases hu : 65 ≤ d.toNat ∧ d.toNat ≤ 90
  · exfalso
    have h1 := toLower_toNat_of_upper d hu
    rw [h] at h1
    have : (',').toNat = 44 := by decide
    omega
  · rw [toLower_eq_of_not_upper d hu] at h
    exact h

theorem parseHostSet_clean (v : List Char) :
    ∀ e ∈ parseHostSet v, hostClean e := by
  intro e he
  rw [mem_parseHostSet_iff] at he
  obtain ⟨i, hi, hie⟩ := List.mem_map.mp he
  obtain ⟨hisp, hcond⟩ := List.mem_filter.mp hi
  have hstrip_ne : pyStrip i ≠ [] := by
    simp only [Bool.and_eq_true, decide_eq_true_eq] at hcond
    exact hcond.2
  have hcomma_i : ',' ∉ i := not_mem_of_mem_splitComma v i hisp
  refine ⟨?_, ?_, ?_, ?_⟩
  · rw [← hie]
    unfold lowerL
    intro hnil
    exact hstrip_ne (List.map_eq_nil_iff.mp hnil)
  · rw [← hie]
    intro hmem
    obtain ⟨d, hd, hdc⟩ := List.mem_map.mp hmem
    have : d = ',' := toLower_eq_comma d hdc
    subst this
    exact hcomma_i (mem_pyStrip i ',' hd)
  · rw [← hie, lowerL_pyStrip_comm, pyStrip_idem]
  · rw [← hie, lowerL_idem]

theorem isPySpace_comma : isPySpace ',' = false := by decide

theorem mem_parse_join (l : List (List Char)) :
    ∀ (pre : List Char), (∀ c ∈ pre, isPySpace c = true) →
      (∀ x ∈ l, hostClean x) →
      ∀ e ∈ l, e ∈ parseHostSet (pre ++ joinCommaSpace l) := by
  induction l with
  | nil => intro pre _ _ e he; simp at he
  | cons x rest ih =>
    intro pre hpre hcl e he
    have hx := hcl x (by simp)
    have hprecomma : ',' ∉ pre := by
      intro hc
      have := hpre ',' hc
      rw [isPySpace_comma] at this
      exact Bool.false_ne_true this
    have hpartclean : ',' ∉ pre ++ x := by
      intro hc
      rcases List.mem_append.mp hc with h1 | h1
      · exact hprecomma h1
      · exact hx.2.1 h1
    have hstrip_part : pyStrip (pre ++ x) = x := by
      rw [pyStrip_append_spaces pre x hpre, hx.2.2.1]
    have hlower_part : lowerL (pyStrip (pre ++ x)) = x := by
      rw [hstrip_part, hx.2.2.2]
    cases rest with
    | nil =>
      have hsplit : splitComma (pre ++ joinCommaSpace [x]) = [pre ++ x] := by
        unfold joinCommaSpace
        exact splitComma_of_no_comma (pre ++ x) hpartclean
      have hone : e = x := by simpa using he
      subst hone
      rw [mem_parseHostSet_iff, hsplit]
      apply List.mem_map.mpr
      refine ⟨pre ++ e, ?_, hlower_part⟩
      apply List.mem_filter.mpr
      refine ⟨by simp, ?_⟩
      simp only [Bool.and_eq_true, decide_eq_true_eq]
      constructor
      · intro hnil
        exact hx.1 (by simpa [hstrip_part] using congrArg pyStrip hnil)
      · rw [hstrip_part]
        exact hx.1
    | cons y ys =>
      have hjoin : joinCommaSpace (x :: y :: ys) =
          x ++ ',' :: ' ' :: joinCommaSpace (y :: ys) := rfl
      have hsplit : splitComma (pre ++ joinCommaSpace (x :: y :: ys)) =
          (pre ++ x) :: splitComma (' ' :: joinCommaSpace (y :: ys)) := by
        rw [hjoin, show pre ++ (x ++ ',' :: ' ' :: joinCommaSpace (y :: ys)) =
          (pre ++ x) ++ ',' :: (' ' :: joinCommaSpace (y :: ys)) by simp]
        exact splitComma_append_comma (pre ++ x) _ hpartclean
      rcases List.mem_cons.mp he with h1 | h1
      · subst h1
        rw [mem_parseHostSet_iff, hsplit]
        apply List.mem_map.mpr
        refine ⟨pre ++ e, ?_, hlower_part⟩
        apply List.mem_filter.mpr
        refine ⟨by simp, ?_⟩
        simp only [Bool.and_eq_true, decide_eq_true_eq]
        constructor
        · intro hnil
          exact hx.1 (by simpa [hstrip_part] using congrArg pyStrip hnil)
        · rw [hstrip_part]
          exact hx.1
      · have hrest := ih [' '] (by intro c hc; simp at hc; rw [hc]; decide)
          (fun z hz => hcl z (by simp [hz])) e h1
        rw [mem_parseHostSet_iff] at hrest ⊢
        rw [hsplit]
        obtain ⟨i, hi, hie⟩ := List.mem_map.mp hrest
        apply List.mem_map.mpr
        refine ⟨i, ?_, hie⟩
        obtain ⟨hisp, hcond⟩ := List.mem_filter.mp hi
        apply List.mem_filter.mpr
        exact ⟨by simpa using Or.inr hisp, hcond⟩

theorem sslMergeLoop_snd_true (l cur : List (List Char)) :
    (sslMergeLoop l cur true).2 = true := by
  induction l generalizing cur with
  | nil => rfl
  | cons h t ih =>
    unfold sslMergeLoop
    by_cases hm : h ∈ cur
    · rw [if_pos hm]; exact ih cur
    · rw [if_neg hm]; exact ih (cur ++ [h])

theorem sslMergeLoop_false_sub (l : List (List Char)) :
    ∀ cur, (sslMergeLoop l cur false).2 = false → ∀ h ∈ l, h ∈ cur := by
  induction l with
  | nil => intro cur _ h hm; simp at hm
  | cons a t ih =>
    intro cur hf h hm
    unfold sslMergeLoop at hf
    by_cases ha : a ∈ cur
    · rw [if_pos ha] at hf
      rcases List.mem_cons.mp hm with h1 | h1
      · exact h1 ▸ ha
      · exact ih cur hf h h1
    · rw [if_neg ha] at hf
      rw [sslMergeLoop_snd_true] at hf
      exact absurd hf (by simp)

theorem sslMergeLoop_mem (l : List (List Char)) :
    ∀ (cur : List (List Char)) (ch : Bool) (a : List Char),
      (a ∈ cur ∨ a ∈ l) → a ∈ (sslMergeLoop l cur ch).1 := by
  induction l with
  | nil =>
    intro cur ch a ha
    rcases ha with h | h
    · exact h
    · simp at h
  | cons x t ih =>
    intro cur ch a ha
    unfold sslMergeLoop
    by_cases hx : x ∈ cur
    · rw [if_pos hx]
      apply ih cur ch a
      rcases ha with h | h
      · exact Or.inl h
      · rcases List.mem_cons.mp h with h1 | h1
        · exact Or.inl (h1 ▸ hx)
        · exact Or.inr h1
    · rw [if_neg hx]
      apply ih (cur ++ [x]) true a
      rcases ha with h | h
      · exact Or.inl (by simp [h])
      · rcases List.mem_cons.mp h with h1 | h1
        · exact Or.inl (by simp [h1])
        · exact Or.inr h1

theorem sslMergeLoop_subset (l : List (List Char)) :
    ∀ (cur : List (List Char)) (ch : Bool) (a : List Char),
      a ∈ (sslMergeLoop l cur ch).1 → a ∈ cur ∨ a ∈ l := by
  induction l with
  | nil => intro cur ch a ha; exact Or.inl ha
  | cons x t ih =>
    intro cur ch a ha
    unfold sslMergeLoop at ha
    by_cases hx : x ∈ cur
    · rw [if_pos hx] at ha
      rcases ih cur ch a ha with h | h
      · exact Or.inl h
      · exact Or.inr (by simp [h])
    · rw [if_neg hx] at ha
      rcases ih (cur ++ [x]) true a ha with h | h
      · rcases List.mem_append.mp h with h1 | h1
        · exact Or.inl h1
        · exact Or.inr (by simp at h1; simp [h1])
      · exact Or.inr (by simp [h])

theorem sslMergeLoop_of_subset (l : List (List Char)) :
    ∀ (cur : List (List Char)) (ch : Bool), (∀ h ∈ l, h ∈ cur) →
      sslMergeLoop l cur ch = (cur, ch) := by
  induction l with
  | nil => intro cur ch _; rfl
  | cons x t ih =>
    intro cur ch hsub
    unfold sslMergeLoop
    rw [if_pos (hsub x (by simp))]
    exact ih cur ch (fun h hm => hsub h (by simp [hm]))

end DomainAliases

namespace SettingsStore

theorem lookupKey_upsert (store : Store) (k v : List Char) :
    lookupKey (upsert store k v) k = some v := by
  induction store with
  | nil => simp [upsert, lookupKey]
  | cons kv t ih =>
    unfold upsert
    by_cases hk : kv.1 = k
    · rw [if_pos hk]
      simp [lookupKey]
    · rw [if_neg hk]
      unfold lookupKey
      rw [if_neg hk]
      exact ih

end SettingsStore

namespace DomainAliases

open PyStr

theorem alphabet_sanitized : ∀ c ∈ _RANDOM_ALPHABET, isSubdomainChar c = true := by
  decide

theorem isSubdomainChar_ne_comma (c : Char) (h : isSubdomainChar c = true) : c ≠ ',' := by
  intro he
  subst he
  simp [isSubdomainChar] at h

theorem regenLoop_cases (db : Db) (base : List Char) (gen : Nat → List Char) :
    ∀ (fuel idx : Nat) (m0 : List Char),
      regenLoop db base gen idx fuel m0 = m0 ∨
        ∃ k, regenLoop db base gen idx fuel m0 = gen k := by
  intro fuel
  induction fuel with
  | zero => intro idx m0; exact Or.inl rfl
  | succ n ih =>
    intro idx m0
    unfold regenLoop
    by_cases hm : masked_exists db base m0 = true
    · rw [if_pos hm]
      rcases ih (idx + 1) (gen idx) with h | ⟨k, hk⟩
      · exact Or.inr ⟨idx, h⟩
      · exact Or.inr ⟨k, hk⟩
    · rw [if_neg hm]
      exact Or.inl rfl

theorem initial_masked_cases (gen : Nat → List Char) (m : Option (List Char)) :
    (initial_masked gen m).1 = gen 0 ∨
      (∃ mm, m = some mm ∧ (initial_masked gen m).1 = normalize_subdomain mm ∧
        normalize_subdomain mm ≠ []) := by
  cases m with
  | none => exact Or.inl rfl
  | some mm =>
    unfold initial_masked
    by_cases hmm : mm = []
    · subst hmm
      exact Or.inl (by simp)
    · simp only [ne_eq, hmm, not_false_eq_true, if_true]
      by_cases hn : normalize_subdomain mm = []
      · rw [if_pos (by simp [hn])]
        exact Or.inl rfl
      · rw [if_neg (by simp [hn])]
        exact Or.inr ⟨mm, rfl, rfl, hn⟩

theorem chosen_masked_cases (db : Db) (rand : Nat → Nat → Nat) (base : List Char)
    (m : Option (List Char)) :
    (∃ k, chosen_masked db rand base m = generate_masked_subdomain (rand k) 24) ∨
      (∃ mm, m = some mm ∧ chosen_masked db rand base m = normalize_subdomain mm ∧
        normalize_subdomain mm ≠ []) := by
  unfold chosen_masked
  by_cases hex : masked_exists db base (initial_masked (gen_stream rand) m).1 = true
  · rw [if_pos hex]
    rcases regenLoop_cases db base (gen_stream rand) 5
        (initial_masked (gen_stream rand) m).2 (initial_masked (gen_stream rand) m).1
      with h | ⟨k, hk⟩
    · rw [h]
      rcases initial_masked_cases (gen_stream rand) m with h1 | ⟨mm, hm1, hm2, hm3⟩
      · exact Or.inl ⟨0, h1⟩
      · exact Or.inr ⟨mm, hm1, hm2, hm3⟩
    · exact Or.inl ⟨k, hk⟩
  · rw [if_neg hex]
    rcases initial_masked_cases (gen_stream rand) m with h1 | ⟨mm, hm1, hm2, hm3⟩
    · exact Or.inl ⟨0, h1⟩
    · exact Or.inr ⟨mm, hm1, hm2, hm3⟩

theorem chosen_masked_sanitized (db : Db) (rand : Nat → Nat → Nat) (base : List Char)
    (m : Option (List Char)) :
    ∀ c ∈ chosen_masked db rand base m, isSubdomainChar c = true := by
  intro c hc
  rcases chosen_masked_cases db rand base m with ⟨k, hk⟩ | ⟨mm, _, hm2, _⟩
  · rw [hk] at hc
    exact alphabet_sanitized c (generate_masked_subdomain_mem_alphabet (rand k) 24 c hc)
  · rw [hm2] at hc
    exact mem_normalize_subdomain_sanitized mm c hc

theorem chosen_masked_ne_nil (db : Db) (rand : Nat → Nat → Nat) (base : List Char)
    (m : Option (List Char)) : chosen_masked db rand base m ≠ [] := by
  rcases chosen_masked_cases db rand base m with ⟨k, hk⟩ | ⟨mm, _, hm2, hm3⟩
  · rw [hk]
    intro hnil
    have := generate_masked_subdomain_length (rand k) 24
    rw [hnil] at this
    simp at this
  · rw [hm2]
    exact hm3

theorem join_host_props (sub base : List Char)
    (hsub : ∀ c ∈ sub, isSubdomainChar c = true)
    (hb0 : base ≠ []) (hbs : ∀ c ∈ base, isPySpace c = false)
    (hbc : ',' ∉ base) (hbl : ∀ c ∈ base, Char.toLower c = c) :
    hostClean (join_host sub base) := by
  have hsub_nospace : ∀ c ∈ sub, isPySpace c = false :=
    fun c hc => isSubdomainChar_not_space c (hsub c hc)
  have hstrip_sub : pyStrip sub = sub := pyStrip_eq_self_of_all sub hsub_nospace
  unfold join_host
  simp only [hstrip_sub]
  by_cases hse : sub = []
  · rw [if_pos hse]
    exact ⟨hb0, hbc, pyStrip_eq_self_of_all base hbs, lowerL_eq_self_of_all base hbl⟩
  · rw [if_neg hse, if_neg hb0]
    have hmem : ∀ c ∈ sub ++ '.' :: base,
        isPySpace c = false ∧ ¬c = ',' ∧ Char.toLower c = c := by
      intro c hc
      rcases List.mem_append.mp hc with h1 | h1
      · exact ⟨hsub_nospace c h1, isSubdomainChar_ne_comma c (hsub c h1),
          isSubdomainChar_toLower c (hsub c h1)⟩
      · rcases List.mem_cons.mp h1 with h2 | h2
        · subst h2
          refine ⟨by decide, by decide, by decide⟩
        · exact ⟨hbs c h2, fun he => hbc (he ▸ h2), hbl c h2⟩
    refine ⟨by simp [hse], ?_, ?_, ?_⟩
    · intro hc
      exact (hmem ',' hc).2.1 rfl
    · exact pyStrip_eq_self_of_all _ (fun c hc => (hmem c hc).1)
    · exact lowerL_eq_self_of_all _ (fun c hc => (hmem c hc).2.2)

theorem ssl_hosts_value_upsert (store : SettingsStore.Store) (v : List Char) :
    ssl_hosts_value (SettingsStore.upsert store "ssl_hosts".data v) = v := by
  unfold ssl_hosts_value SettingsStore.get_setting
  rw [SettingsStore.lookupKey_upsert]
  rfl

theorem normalized_hosts_pair (t mh : List Char) (ht : hostClean t) (hm : hostClean mh) :
    normalized_hosts [t, mh] = [t, mh] := by
  unfold normalized_hosts
  rw [show List.filter (fun h => decide (h ≠ [])) [t, mh] = [t, mh] from by
    simp [List.filter, ht.1, hm.1]]
  simp only [List.map_cons, List.map_nil]
  rw [ht.2.2.1, ht.2.2.2, hm.2.2.1, hm.2.2.2]

theorem sync_ssl_hosts_mem (store : SettingsStore.Store) (t mh : List Char)
    (ht : hostClean t) (hm : hostClean mh) :
    (t ∈ parseHostSet (ssl_hosts_value (_sync_ssl_hosts store [t, mh])) ∧
     mh ∈ parseHostSet (ssl_hosts_value (_sync_ssl_hosts store [t, mh]))) ∧
    (∀ e ∈ parseHostSet (ssl_hosts_value store),
      e ∈ parseHostSet (ssl_hosts_value (_sync_ssl_hosts store [t, mh]))) ∧
    (t ∈ parseHostSet (ssl_hosts_value store) →
      mh ∈ parseHostSet (ssl_hosts_value store) →
      _sync_ssl_hosts store [t, mh] = store) := by
  have hpair := normalized_hosts_pair t mh ht hm
  have hne : normalized_hosts [t, mh] ≠ [] := by
    rw [hpair]
    simp
  have hunch : t ∈ parseHostSet (ssl_hosts_value store) →
      mh ∈ parseHostSet (ssl_hosts_value store) →
      _sync_ssl_hosts store [t, mh] = store := by
    intro h1 h2
    unfold _sync_ssl_hosts
    rw [if_neg hne, hpair]
    rw [sslMergeLoop_of_subset [t, mh] (parseHostSet (ssl_hosts_value store)) false
      (by intro h hm2; rcases List.mem_cons.mp hm2 with h3 | h3
          · exact h3 ▸ h1
          · simp at h3; exact h3 ▸ h2)]
    rfl
  refine ⟨?_, ?_, hunch⟩
  all_goals
    unfold _sync_ssl_hosts
    rw [if_neg hne, hpair]
  all_goals
    by_cases hch : (sslMergeLoop [t, mh] (parseHostSet (ssl_hosts_value store)) false).2 = true
  · rw [if_pos hch]
    rw [ssl_hosts_value_upsert]
    have hclean_all : ∀ x ∈ sortStrs
        (sslMergeLoop [t, mh] (parseHostSet (ssl_hosts_value store)) false).1,
        hostClean x := by
      intro x hx
      rw [mem_sortStrs] at hx
      rcases sslMergeLoop_subset [t, mh] (parseHostSet (ssl_hosts_value store)) false x hx
        with h1 | h1
      · exact parseHostSet_clean _ x h1
      · rcases List.mem_cons.mp h1 with h2 | h2
        · exact h2 ▸ ht
        · simp at h2
          exact h2 ▸ hm
    constructor
    · have := mem_parse_join _ [] (by simp) hclean_all t
        (by rw [mem_sortStrs]
            exact sslMergeLoop_mem [t, mh] _ false t (Or.inr (by simp)))
      simpa using this
    · have := mem_parse_join _ [] (by simp) hclean_all mh
        (by rw [mem_sortStrs]
            exact sslMergeLoop_mem [t, mh] _ false mh (Or.inr (by simp)))
      simpa using this
  · rw [if_neg hch]
    have hsub := sslMergeLoop_false_sub [t, mh] (parseHostSet (ssl_hosts_value store))
      (by simpa using hch)
    exact ⟨hsub t (by simp), hsub mh (by simp)⟩
  · rw [if_pos hch]
    rw [ssl_hosts_value_upsert]
    intro e hecur
    have hclean_all : ∀ x ∈ sortStrs
        (sslMergeLoop [t, mh] (parseHostSet (ssl_hosts_value store)) false).1,
        hostClean x := by
      intro x hx
      rw [mem_sortStrs] at hx
      rcases sslMergeLoop_subset [t, mh] (parseHostSet (ssl_hosts_value store)) false x hx
        with h1 | h1
      · exact parseHostSet_clean _ x h1
      · rcases List.mem_cons.mp h1 with h2 | h2
        · exact h2 ▸ ht
        · simp at h2
          exact h2 ▸ hm
    have := mem_parse_join _ [] (by simp) hclean_all e
      (by rw [mem_sortStrs]
          exact sslMergeLoop_mem [t, mh] _ false e (Or.inl hecur))
    simpa using this
  · rw [if_neg hch]
    intro e he
    exact he

end DomainAliases

namespace DomainAliases

open PyStr

theorem create_ok_inv (db : Db) (store : SettingsStore.Store) (rand : Nat → Nat → Nat)
    (newId b s : List Char) (m : Option (List Char)) (view : AliasView) (db' : Db)
    (store' : SettingsStore.Store)
    (h : create_alias db store rand newId b s m = .ok view db' store') :
    normalize_domain b ≠ [] ∧
    view = decorate (new_row db rand newId b s m) ∧
    store' = _sync_ssl_hosts store
      [join_host (normalize_subdomain s) (normalize_domain b),
       join_host (chosen_masked db rand (normalize_domain b) m) (normalize_domain b)] := by
  unfold create_alias at h
  split at h
  · exact absurd h (by simp)
  · split at h
    · exact absurd h (by simp)
    · rename_i h1 h2
      injection h with ha hb hc
      exact ⟨h1, ha.symm, hc.symm⟩

theorem create_alias_hosts_mem (db : Db) (store : SettingsStore.Store)
    (rand : Nat → Nat → Nat) (newId b s : List Char) (m : Option (List Char))
    (view : AliasView) (db' : Db) (store' : SettingsStore.Store)
    (h : create_alias db store rand newId b s m = .ok view db' store')
    (hsp : ∀ c ∈ normalize_domain b, isPySpace c = false)
    (hcm : ',' ∉ normalize_domain b) :
    (view.target_host ∈ parseHostSet (ssl_hosts_value store') ∧
     view.masked_host ∈ parseHostSet (ssl_hosts_value store')) ∧
    (∀ e ∈ parseHostSet (ssl_hosts_value store),
      e ∈ parseHostSet (ssl_hosts_value store')) ∧
    (view.target_host ∈ parseHostSet (ssl_hosts_value store) →
     view.masked_host ∈ parseHostSet (ssl_hosts_value store) → store' = store) := by
  obtain ⟨hb, hv, hst⟩ := create_ok_inv db store rand newId b s m view db' store' h
  have hvt : view.target_host =
      join_host (normalize_subdomain s) (normalize_domain b) := by
    rw [hv]
    rfl
  have hvm : view.masked_host =
      join_host (chosen_masked db rand (normalize_domain b) m) (normalize_domain b) := by
    rw [hv]
    rfl
  have ht : hostClean (join_host (normalize_subdomain s) (normalize_domain b)) :=
    join_host_props _ _ (fun c hc => mem_normalize_subdomain_sanitized s c hc)
      hb hsp hcm (fun c hc => mem_normalize_domain_lower b c hc)
  have hmh : hostClean
      (join_host (chosen_masked db rand (normalize_domain b) m) (normalize_domain b)) :=
    join_host_props _ _ (chosen_masked_sanitized db rand (normalize_domain b) m)
      hb hsp hcm (fun c hc => mem_normalize_domain_lower b c hc)
  have hmain := sync_ssl_hosts_mem store
    (join_host (normalize_subdomain s) (normalize_domain b))
    (join_host (chosen_masked db rand (normalize_domain b) m) (normalize_domain b)) ht hmh
  rw [hst, hvt, hvm]
  exact ⟨hmain.1, hmain.2.1, hmain.2.2⟩

/-- C4.  After a successful create_alias, the ssl_hosts setting (as the
service itself parses it: comma-split, stripped, lowered, as a set)
contains both the alias's target host and its masked host; every host of
the previous list is retained by the merge; the setting is written back
only if the merge added at least one new host (when both hosts were
already present the store is unchanged); and the documented scenario holds:
creating Login Page under https Example.com slash yields base example.com,
subdomain login-page, a 24-character masked label, and a host list
containing login-page.example.com and the masked host.  The two string
hypotheses restrict to base domains that survive the storage format
(no comma, no whitespace), which every real hostname satisfies. -/
theorem claim_C4_ssl_host_propagation (db : Db) (store : SettingsStore.Store)
    (rand : Nat → Nat → Nat) (newId b s : List Char) (m : Option (List Char))
    (view : AliasView) (db' : Db) (store' : SettingsStore.Store)
    (h : create_alias db store rand newId b s m = .ok view db' store')
    (hsp : ∀ c ∈ normalize_domain b, isPySpace c = false)
    (hcm : ',' ∉ normalize_domain b) :
    (view.target_host ∈ parseHostSet (ssl_hosts_value store') ∧
     view.masked_host ∈ parseHostSet (ssl_hosts_value store')) ∧
    (∀ e ∈ parseHostSet (ssl_hosts_value store),
      e ∈ parseHostSet (ssl_hosts_value store')) ∧
    (view.target_host ∈ parseHostSet (ssl_hosts_value store) →
     view.masked_host ∈ parseHostSet (ssl_hosts_value store) → store' = store) ∧
    (∀ (rnd : Nat → Nat → Nat) (v2 : AliasView) (d2 : Db) (st2 : SettingsStore.Store),
      create_alias [] [] rnd "id".data "https://Example.com/".data "Login Page".data
        none = .ok v2 d2 st2 →
      v2.base_domain = "example.com".data ∧ v2.subdomain = "login-page".data ∧
      v2.masked_subdomain.length = 24 ∧
      "login-page.example.com".data ∈ parseHostSet (ssl_hosts_value st2) ∧
      v2.masked_host ∈ parseHostSet (ssl_hosts_value st2)) := by
  have hmem := create_alias_hosts_mem db store rand newId b s m view db' store' h hsp hcm
  refine ⟨hmem.1, hmem.2.1, hmem.2.2, ?_⟩
  intro rnd v2 d2 st2 h2
  obtain ⟨hb2, hv2, hst2⟩ := create_ok_inv [] [] rnd "id".data
    "https://Example.com/".data "Login Page".data none v2 d2 st2 h2
  have hmem2 := create_alias_hosts_mem [] [] rnd "id".data
    "https://Example.com/".data "Login Page".data none v2 d2 st2 h2
    (by decide) (by decide)
  have hbase2 : v2.base_domain = "example.com".data := by
    rw [hv2]
    show normalize_domain "https://Example.com/".data = "example.com".data
    decide
  have hsub2 : v2.subdomain = "login-page".data := by
    rw [hv2]
    show normalize_subdomain "Login Page".data = "login-page".data
    decide
  have hmask2 : v2.masked_subdomain = generate_masked_subdomain (rnd 0) 24 := by
    rw [hv2]
    rfl
  have htarget2 : v2.target_host = "login-page.example.com".data := by
    rw [hv2]
    show join_host (normalize_subdomain "Login Page".data)
      (normalize_domain "https://Example.com/".data) = "login-page.example.com".data
    decide
  refine ⟨hbase2, hsub2, ?_, ?_, hmem2.1.2⟩
  · rw [hmask2, generate_masked_subdomain_length]
    decide
  · rw [← htarget2]
    exact hmem2.1.1

/-- C4 witness: the scenario instantiated at a concrete draw stream; both
hosts land in the parsed ssl_hosts setting after the call, the base and
subdomain normalize as documented, and the generated label has 24
characters. -/
theorem claim_C4_ssl_host_propagation_witness :
    (decorate (new_row [] (fun _ i => i) "id".data "https://Example.com/".data
        "Login Page".data none)).base_domain = "example.com".data ∧
    (decorate (new_row [] (fun _ i => i) "id".data "https://Example.com/".data
        "Login Page".data none)).subdomain = "login-page".data ∧
    (decorate (new_row [] (fun _ i => i) "id".data "https://Example.com/".data
        "Login Page".data none)).masked_subdomain.length = 24 ∧
    "login-page.example.com".data ∈ parseHostSet (ssl_hosts_value
      (_sync_ssl_hosts []
        [join_host (normalize_subdomain "Login Page".data)
          (normalize_domain "https://Example.com/".data),
         join_host (chosen_masked [] (fun _ i => i)
            (normalize_domain "https://Example.com/".data) none)
          (normalize_domain "https://Example.com/".data)])) ∧
    (decorate (new_row [] (fun _ i => i) "id".data "https://Example.com/".data
        "Login Page".data none)).masked_host ∈ parseHostSet (ssl_hosts_value
      (_sync_ssl_hosts []
        [join_host (normalize_subdomain "Login Page".data)
          (normalize_domain "https://Example.com/".data),
         join_host (chosen_masked [] (fun _ i => i)
            (normalize_domain "https://Example.com/".data) none)
          (normalize_domain "https://Example.com/".data)])) := by
  exact (claim_C4_ssl_host_propagation [] [] (fun _ i => i) "id".data
    "https://Example.com/".data "Login Page".data none
    (decorate (new_row [] (fun _ i => i) "id".data "https://Example.com/".data
      "Login Page".data none))
    ([] ++ [new_row [] (fun _ i => i) "id".data "https://Example.com/".data
      "Login Page".data none])
    (_sync_ssl_hosts []
      [join_host (normalize_subdomain "Login Page".data)
        (normalize_domain "https://Example.com/".data),
       join_host (chosen_masked [] (fun _ i => i)
          (normalize_domain "https://Example.com/".data) none)
        (normalize_domain "https://Example.com/".data)])
    rfl (by decide) (by decide)).2.2.2 (fun _ i => i)
    (decorate (new_row [] (fun _ i => i) "id".data "https://Example.com/".data
      "Login Page".data none))
    ([] ++ [new_row [] (fun _ i => i) "id".data "https://Example.com/".data
      "Login Page".data none])
    (_sync_ssl_hosts []
      [join_host (normalize_subdomain "Login Page".data)
        (normalize_domain "https://Example.com/".data),
       join_host (chosen_masked [] (fun _ i => i)
          (normalize_domain "https://Example.com/".data) none)
        (normalize_domain "https://Example.com/".data)])
    rfl

end DomainAliases
